/-
Verification development for the JSON-schema document compiler of this
repository (`pydantic/json_schema.py`).

The Python module is shallowly embedded: every mutable attribute of a
`GenerateJsonSchema` instance becomes a field of an explicit state record,
Python exceptions become an `Except` layer (with `tryCatch` preserving the
state accumulated before a raise, as Python does), and Python `dict`s become
insertion-ordered association lists with overwrite-in-place update semantics
(matching CPython dicts).  All definitions are translated from the source
file; line references point into `pydantic/json_schema.py`.
-/
import Mathlib

namespace Pyd

/-- `JsonSchemaMode` (json_schema.py line 76): 'validation' | 'serialization'. -/
inductive Mode where
  | validation
  | serialization
deriving DecidableEq, Repr

/-- `_MODE_TITLE_MAPPING` (line 85). -/
def modeTitle : Mode → String
  | .validation => "Input"
  | .serialization => "Output"

/-- The exception classes the module can raise, as an inductive:
`invalidForJsonSchema` is `PydanticInvalidForJsonSchema` (errors.py line 145)
carrying its `message` (its `code` is always 'invalid-for-json-schema');
`userError` is `PydanticUserError` (errors.py line 90) with `message` and
`code`; `omit` is `pydantic_core.PydanticOmit`; `keyError`, `stopIteration`
and `typeError` stand for the corresponding Python built-in exceptions;
`fuelExhausted` marks a state on which a source loop would not terminate or
would exceed the modelled iteration bound — unreachable for the bounds the
pipeline computes, and distinct from every real exception. -/
inductive PyErr where
  | invalidForJsonSchema (message : String)
  | userError (message : String) (code : String)
  | omit
  | stopIteration
  | keyError (key : String)
  | typeError (message : String)
  | fuelExhausted
deriving DecidableEq, Repr

/-- Whether an exception is of the `PydanticInvalidForJsonSchema` class —
the class raised for representability gaps (errors.py line 145). -/
def PyErr.isInvalidForJsonSchema : PyErr → Bool
  | .invalidForJsonSchema _ => true
  | _ => false

/-- JSON-representable values (`JsonSchemaValue` = a string-keyed dict of
JSON values, line 71).  Objects are insertion-ordered association lists,
mirroring CPython dicts. -/
inductive JVal where
  | null
  | bool (b : Bool)
  | int (n : Int)
  | str (s : String)
  | arr (items : List JVal)
  | obj (entries : List (String × JVal))
deriving Repr, Inhabited

abbrev JObj := List (String × JVal)

mutual
/-- Structural (ordered) equality on `JVal`; order-insensitive Python `==`
is `pyEq` below. -/
def JVal.beq : JVal → JVal → Bool
  | .null, .null => true
  | .bool a, .bool c => a == c
  | .int a, .int c => a == c
  | .str a, .str c => a == c
  | .arr xs, .arr ys => beqArr xs ys
  | .obj xs, .obj ys => beqObj xs ys
  | _, _ => false

def beqArr : List JVal → List JVal → Bool
  | [], [] => true
  | x :: xs, y :: ys => JVal.beq x y && beqArr xs ys
  | _, _ => false

def beqObj : List (String × JVal) → List (String × JVal) → Bool
  | [], [] => true
  | (k₁, v₁) :: xs, (k₂, v₂) :: ys => k₁ == k₂ && JVal.beq v₁ v₂ && beqObj xs ys
  | _, _ => false
end

mutual
theorem JVal.eq_of_beq : ∀ (a b : JVal), JVal.beq a b = true → a = b
  | .null, .null, _ => rfl
  | .bool a, .bool c, h => by simp [JVal.beq] at h; simp [h]
  | .int a, .int c, h => by simp [JVal.beq] at h; simp [h]
  | .str a, .str c, h => by simp [JVal.beq] at h; simp [h]
  | .arr xs, .arr ys, h => by
    simp only [JVal.beq] at h
    simp [eqArr_of_beqArr xs ys h]
  | .obj xs, .obj ys, h => by
    simp only [JVal.beq] at h
    simp [eqObj_of_beqObj xs ys h]
  | .null, .bool _, h | .null, .int _, h | .null, .str _, h | .null, .arr _, h
  | .null, .obj _, h
  | .bool _, .null, h | .bool _, .int _, h | .bool _, .str _, h | .bool _, .arr _, h
  | .bool _, .obj _, h
  | .int _, .null, h | .int _, .bool _, h | .int _, .str _, h | .int _, .arr _, h
  | .int _, .obj _, h
  | .str _, .null, h | .str _, .bool _, h | .str _, .int _, h | .str _, .arr _, h
  | .str _, .obj _, h
  | .arr _, .null, h | .arr _, .bool _, h | .arr _, .int _, h | .arr _, .str _, h
  | .arr _, .obj _, h
  | .obj _, .null, h | .obj _, .bool _, h | .obj _, .int _, h | .obj _, .str _, h
  | .obj _, .arr _, h => by simp [JVal.beq] at h

theorem eqArr_of_beqArr : ∀ (xs ys : List JVal), beqArr xs ys = true → xs = ys
  | [], [], _ => rfl
  | x :: xs, y :: ys, h => by
    simp only [beqArr, Bool.and_eq_true] at h
    rw [JVal.eq_of_beq x y h.1, eqArr_of_beqArr xs ys h.2]
  | [], _ :: _, h | _ :: _, [], h => by simp [beqArr] at h

theorem eqObj_of_beqObj : ∀ (xs ys : List (String × JVal)), beqObj xs ys = true → xs = ys
  | [], [], _ => rfl
  | (k₁, v₁) :: xs, (k₂, v₂) :: ys, h => by
    simp only [beqObj, Bool.and_eq_true, beq_iff_eq] at h
    rw [h.1.1, JVal.eq_of_beq v₁ v₂ h.1.2, eqObj_of_beqObj xs ys h.2]
  | [], _ :: _, h | _ :: _, [], h => by simp [beqObj] at h
end

mutual
theorem JVal.beq_refl : ∀ (a : JVal), JVal.beq a a = true
  | .null => rfl
  | .bool a => by simp [JVal.beq]
  | .int a => by simp [JVal.beq]
  | .str a => by simp [JVal.beq]
  | .arr xs => by simp [JVal.beq, beqArr_refl xs]
  | .obj xs => by simp [JVal.beq, beqObj_refl xs]

theorem beqArr_refl : ∀ (xs : List JVal), beqArr xs xs = true
  | [] => rfl
  | x :: xs => by simp [beqArr, JVal.beq_refl x, beqArr_refl xs]

theorem beqObj_refl : ∀ (xs : List (String × JVal)), beqObj xs xs = true
  | [] => rfl
  | (k, v) :: xs => by simp [beqObj, JVal.beq_refl v, beqObj_refl xs]
end

theorem JVal.beq_iff_eq (a b : JVal) : JVal.beq a b = true ↔ a = b :=
  ⟨JVal.eq_of_beq a b, fun h => h ▸ JVal.beq_refl a⟩

instance : DecidableEq JVal := fun a b =>
  decidable_of_iff (JVal.beq a b = true) (JVal.beq_iff_eq a b)

/-- Python `d.get(k)` / `d[k]` lookup on an association list (first match —
keys are unique in lists built by `aset`). -/
def alookup {κ α : Type} [DecidableEq κ] : List (κ × α) → κ → Option α
  | [], _ => none
  | (k, v) :: rest, key => if k = key then some v else alookup rest key

/-- Python `k in d`. -/
def ahas {κ α : Type} [DecidableEq κ] (l : List (κ × α)) (k : κ) : Bool :=
  (alookup l k).isSome

/-- Python `d[k] = v`: overwrite in place if the key exists (keeping its
position, as CPython dicts do), else append. -/
def aset {κ α : Type} [DecidableEq κ] : List (κ × α) → κ → α → List (κ × α)
  | [], key, v => [(key, v)]
  | (k, v') :: rest, key, v =>
    if k = key then (key, v) :: rest else (k, v') :: aset rest key v

/-- Python `del d[k]` / `d.pop(k, None)`. -/
def adel {κ α : Type} [DecidableEq κ] (l : List (κ × α)) (k : κ) : List (κ × α) :=
  l.filter (fun e => e.1 ≠ k)

def akeys {κ α : Type} (l : List (κ × α)) : List κ := l.map Prod.fst

def dget (d : JObj) (k : String) : Option JVal := alookup d k
def dhas (d : JObj) (k : String) : Bool := ahas d k
def dset (d : JObj) (k : String) (v : JVal) : JObj := aset d k v

/-- Rebuilding a dict from a (possibly key-colliding) entry sequence, as a
Python dict comprehension does: first occurrence fixes the position, last
occurrence fixes the value. -/
def collapseEntries (l : JObj) : JObj :=
  l.foldl (fun acc e => dset acc e.1 e.2) []

/-- Code-point lexicographic order on strings (what Python `sorted` uses on
`str`). -/
def charListLe : List Char → List Char → Bool
  | [], _ => true
  | _ :: _, [] => false
  | a :: as, b :: bs =>
    if a.toNat < b.toNat then true
    else if b.toNat < a.toNat then false
    else charListLe as bs

def strLe (a b : String) : Bool := charListLe a.toList b.toList

def insertByKey (e : String × JVal) : List (String × JVal) → List (String × JVal)
  | [] => [e]
  | f :: rest => if strLe e.1 f.1 then e :: f :: rest else f :: insertByKey e rest

/-- Stable insertion sort of object entries by key: what Python
`sorted(...)` yields on the `(key, hashable)` pairs of a dict, whose keys
are unique. -/
def sortByKey (l : List (String × JVal)) : List (String × JVal) :=
  l.foldr insertByKey []

mutual
/-- `_make_json_hashable` (lines 2293-2299) renders a JSON value hashable by
recursively sorting dict entries; two values get the same hashable form (and
compare `==` in Python, whose dict equality is order-insensitive) exactly
when their canonical forms are equal. -/
def canon : JVal → JVal
  | .null => .null
  | .bool b => .bool b
  | .int n => .int n
  | .str s => .str s
  | .arr items => .arr (canonArr items)
  | .obj entries => .obj (sortByKey (canonObj entries))
termination_by structural v => v

def canonArr : List JVal → List JVal
  | [] => []
  | v :: rest => canon v :: canonArr rest
termination_by structural l => l

def canonObj : List (String × JVal) → List (String × JVal)
  | [] => []
  | (k, v) :: rest => (k, canon v) :: canonObj rest
termination_by structural l => l
end

/-- Python `==` on JSON values: list order matters, dict order does not. -/
def pyEq (a b : JVal) : Bool := JVal.beq (canon a) (canon b)

/-- One step of the dict comprehension in `_deduplicate_schemas`
(`{_make_json_hashable(schema): schema for schema in schemas}`): an existing
key keeps its position but its value is overwritten. -/
def dictInsertPair (acc : List (JVal × JVal)) (key v : JVal) : List (JVal × JVal) :=
  match acc with
  | [] => [(key, v)]
  | (k, v') :: rest =>
    if JVal.beq k key then (key, v) :: rest else (k, v') :: dictInsertPair rest key v

/-- `_deduplicate_schemas` (lines 2289-2290). -/
def deduplicate_schemas (schemas : List JVal) : List JVal :=
  (schemas.foldl (fun acc s => dictInsertPair acc (canon s) s) []).map Prod.snd

mutual
/-- `_sort_json_schema` (lines 2302-2317): recursively sort all map keys
except inside `properties` / `default` subtrees.  The source iterates the
(possibly sorted) keys and recurses on each value; since keys are unique,
sorting the entries first and then recursing is the same function. -/
def sort_json_schema : JVal → Option String → JVal
  | .obj entries, parentKey =>
    let recursed := sortEntries entries
    .obj
      (if parentKey ≠ some "properties" ∧ parentKey ≠ some "default" then
        sortByKey recursed
      else recursed)
  | .arr items, parentKey => .arr (sortItems items parentKey)
  | other, _ => other
termination_by structural v _ => v

def sortEntries : List (String × JVal) → List (String × JVal)
  | [] => []
  | (k, v) :: rest => (k, sort_json_schema v (some k)) :: sortEntries rest
termination_by structural l => l

def sortItems : List JVal → Option String → List JVal
  | [], _ => []
  | v :: rest, parentKey => sort_json_schema v parentKey :: sortItems rest parentKey
termination_by structural l _ => l
end

mutual
/-- `_get_all_json_refs` (lines 2379-2397): every string sitting under a
`$ref` key anywhere in the value (a string under `$ref` is collected, not
traversed; any other string is ignored).  The source's explicit stack
produces this set in a different order; we list refs left-to-right. -/
def refsOf : JVal → List String
  | .obj entries => refsOfObj entries
  | .arr items => refsOfArr items
  | _ => []
termination_by structural v => v

def refsOfArr : List JVal → List String
  | [] => []
  | v :: rest => refsOf v ++ refsOfArr rest
termination_by structural l => l

def refsOfObj : List (String × JVal) → List String
  | [] => []
  | (k, v) :: rest =>
    (if k = "$ref" then
      match v with
      | .str s => [s]
      | v' => refsOf v'
     else refsOf v) ++ refsOfObj rest
termination_by structural l => l
end

def lbrace : Char := Char.ofNat 123
def rbrace : Char := Char.ofNat 125

def placeholderSplit : List Char → Option (List Char)
  | 'm' :: 'o' :: 'd' :: 'e' :: 'l' :: r :: rest₂ =>
    if r = rbrace then some rest₂ else none
  | _ => none

/-- Replace every occurrence of the format field `{model}`.  Structural on a
fuel that starts at the template length: each step consumes at least one
character, so fuel never runs out. -/
def format_ref_aux (name : List Char) : Nat → List Char → List Char
  | 0, rest => rest
  | _ + 1, [] => []
  | fuel + 1, c :: rest =>
    if c = lbrace then
      match placeholderSplit rest with
      | some rest₂ => name ++ format_ref_aux name fuel rest₂
      | none => c :: format_ref_aux name fuel rest
    else c :: format_ref_aux name fuel rest

/-- Python `ref_template.format(model=defs_ref)` for templates whose only
replacement field is `{model}` (the module default `DEFAULT_REF_TEMPLATE`,
line 123). -/
def format_ref (template modelName : String) : String :=
  String.mk (format_ref_aux modelName.toList template.toList.length template.toList)

def DEFAULT_REF_TEMPLATE : String := "#/$defs/{model}"

/- ### `_DefinitionsRemapping` (lines 142-219) -/

structure Remapping where
  defs_remapping : List (String × String)
  json_remapping : List (String × String)
deriving DecidableEq, Repr

/-- `remap_defs_ref` (lines 193-194). -/
def Remapping.remap_defs_ref (m : Remapping) (r : String) : String :=
  (alookup m.defs_remapping r).getD r

/-- `remap_json_ref` (lines 196-197). -/
def Remapping.remap_json_ref (m : Remapping) (r : String) : String :=
  (alookup m.json_remapping r).getD r

mutual
/-- `remap_json_schema` (lines 199-219).  Note the source remaps every bare
string through `json_remapping` (not only `$ref` values) — see its comment
about relying on no collisions — and rebuilds any `$defs` dict with remapped
keys (a dict comprehension, so colliding remapped keys collapse). -/
def remap_json_schema (m : Remapping) : JVal → JVal
  | .str s => .str (m.remap_json_ref s)
  | .arr items => .arr (remapItems m items)
  | .obj entries => .obj (remapEntries m entries)
  | other => other
termination_by structural v => v

def remapItems (m : Remapping) : List JVal → List JVal
  | [] => []
  | v :: rest => remap_json_schema m v :: remapItems m rest
termination_by structural l => l

def remapEntries (m : Remapping) : List (String × JVal) → List (String × JVal)
  | [] => []
  | (k, v) :: rest =>
    (k,
      if k = "$ref" then
        match v with
        | .str s => .str (m.remap_json_ref s)
        | v' => remap_json_schema m v'
      else if k = "$defs" then
        match v with
        | .obj defs => .obj (collapseEntries (remapDefs m defs))
        | v' => remap_json_schema m v'
      else remap_json_schema m v) :: remapEntries m rest
termination_by structural l => l

def remapDefs (m : Remapping) : List (String × JVal) → List (String × JVal)
  | [] => []
  | (k, v) :: rest => (m.remap_defs_ref k, remap_json_schema m v) :: remapDefs m rest
termination_by structural l => l
end

/-- The error value constructed at line 191 when the fixed-point loop in
`from_prioritized_choices` exhausts its 100 iterations. -/
def simplifyFailedError : PyErr :=
  .invalidForJsonSchema "Failed to simplify the JSON schema definitions"

/-- Lines 163-168: for every possible remapped DefsRef, collect all schemas
that DefsRef might be used for.  `prioritized_choices[defs_ref]` raises
`KeyError` when absent; the buckets are a `defaultdict(list)` filled in
first-touch order. -/
def bucketsFor (prioritized : List (String × List String)) (vals : JObj) :
    Except PyErr (List (String × List JVal)) :=
  vals.foldlM
    (fun acc e =>
      match alookup prioritized e.1 with
      | none => .error (.keyError e.1)
      | some alternatives =>
        .ok (alternatives.foldl
          (fun acc alt => aset acc alt ((alookup acc alt).getD [] ++ [e.2])) acc))
    []

/-- Lines 176-184: pick, for every original DefsRef, the first alternative
whose (deduplicated) bucket has exactly one schema; `next(...)` raises
`StopIteration` when no alternative qualifies, and `defs_to_json[...]`
raises `KeyError` when a ref is missing.  Buckets are a defaultdict: a
missing bucket reads as empty. -/
def buildRemapping (prioritized : List (String × List String))
    (defsToJson : List (String × String)) (origKeys : List String)
    (buckets : List (String × List JVal)) : Except PyErr Remapping :=
  (origKeys.foldlM
    (fun (acc : Remapping) origRef =>
      match alookup prioritized origRef with
      | none => .error (.keyError origRef)
      | some alternatives =>
        match alternatives.find? (fun alt => ((alookup buckets alt).getD []).length = 1) with
        | none => .error .stopIteration
        | some remappedRef =>
          match alookup defsToJson origRef, alookup defsToJson remappedRef with
          | some jOrig, some jNew =>
            .ok { defs_remapping := aset acc.defs_remapping origRef remappedRef,
                  json_remapping := aset acc.json_remapping jOrig jNew }
          | none, _ => .error (.keyError origRef)
          | _, none => .error (.keyError remappedRef))
    ⟨[], []⟩)

/-- One iteration of the loop body (lines 163-185): build buckets from the
current working definitions, deduplicate them, build the remapping, and
remap every working value in place. -/
def remapRound (prioritized : List (String × List String))
    (defsToJson : List (String × String)) (origKeys : List String)
    (vals : JObj) : Except PyErr (Remapping × JObj) := do
  let buckets ← bucketsFor prioritized vals
  let buckets := buckets.map (fun e => (e.1, deduplicate_schemas e.2))
  let remapping ← buildRemapping prioritized defsToJson origKeys buckets
  .ok (remapping, vals.map (fun e => (e.1, remap_json_schema remapping e.2)))

/-- The fixed-point loop of `from_prioritized_choices` (lines 160-191).

In the source, `remap_json_schema` mutates the working values of
`copied_definitions` in place while the `$defs` comprehension builds a new
dict with remapped keys.  Consequently `definitions_schema` (the previous
round's document) shares — and is mutated along with — the current values,
so the line-186 equality test compares two key-rebuilt dicts over the *same*
post-remap values: one keyed by the previous round's renaming of the
original keys, one by the current round's.  Python dict `==` is
order-insensitive, hence `pyEq`. -/
def remapLoop (prioritized : List (String × List String))
    (defsToJson : List (String × String)) (origKeys : List String) :
    Nat → Remapping → JObj → Except PyErr Remapping
  | 0, _, _ => .error simplifyFailedError
  | fuel + 1, prevRemap, vals => do
    let (remapping, vals') ← remapRound prioritized defsToJson origKeys vals
    let prevDoc := collapseEntries (vals'.map (fun e => (prevRemap.remap_defs_ref e.1, e.2)))
    let newDoc := collapseEntries (vals'.map (fun e => (remapping.remap_defs_ref e.1, e.2)))
    if pyEq (.obj prevDoc) (.obj newDoc) then .ok remapping
    else remapLoop prioritized defsToJson origKeys fuel remapping vals'

/-- `_DefinitionsRemapping.from_prioritized_choices` (lines 147-191): at
most 100 rounds (`for _iter in range(100)`), starting from a deep copy of
the definitions (value-identical here) and an identity previous renaming. -/
def from_prioritized_choices (prioritized : List (String × List String))
    (defsToJson : List (String × String)) (definitions : JObj) :
    Except PyErr Remapping :=
  remapLoop prioritized defsToJson (akeys definitions) 100 ⟨[], []⟩ definitions

/- ### Name resolver (`normalize_name` / `get_defs_ref`, lines 1891-1948) -/

/-- `normalize_name` (lines 1891-1900):
`re.sub` replaces every character outside `[a-zA-Z0-9.\-_]` with `_`, then
`.replace` expands each `.` to `__`. -/
def normalize_name (name : String) : String :=
  String.mk (name.toList.foldr
    (fun c acc =>
      let c' := if c.isAlpha ∨ c.isDigit ∨ c = '.' ∨ c = '-' ∨ c = '_' then c else '_'
      if c' = '.' then '_' :: '_' :: acc else c' :: acc)
    [])

/-- `re.split` with the capturing pattern `([\][,])` (line 1913): split at
every `[`, `]` or `,`, keeping each separator as its own component (empty
chunks included, as `re.split` produces). -/
def splitComponentsAux (acc : List Char) : List Char → List (List Char)
  | [] => [acc.reverse]
  | c :: rest =>
    if c = '[' ∨ c = ']' ∨ c = ',' then
      acc.reverse :: [c] :: splitComponentsAux [] rest
    else splitComponentsAux (c :: acc) rest

def splitComponents (cs : List Char) : List (List Char) := splitComponentsAux [] cs

/-- `x.rsplit(':', 1)[0]` (line 1915): drop everything after the last `:`
(no-op when there is no colon). -/
def dropAfterLastColon (cs : List Char) : List Char :=
  match cs.reverse.dropWhile (fun c => c ≠ ':') with
  | [] => cs
  | _ :: restRev => restRev.reverse

/-- A character matching `[^.[\]]` — one character of a "segment" in the
pattern of line 1918. -/
def isSegChar (c : Char) : Bool := c ≠ '.' ∧ c ≠ '[' ∧ c ≠ ']'

/-- Consume `(('.' segment))*` greedily after an initial segment, returning
the last segment, the remainder, and whether at least one `.segment` was
consumed.  Fuel starts at the input length; every step consumes at least two
characters, so fuel never runs out. -/
def altChain : Nat → List Char → List Char → List Char × List Char × Bool
  | 0, lastSeg, cs => (lastSeg, cs, false)
  | fuel + 1, lastSeg, cs =>
    match cs with
    | '.' :: rest =>
      let seg := rest.takeWhile isSegChar
      if seg.isEmpty then (lastSeg, cs, false)
      else
        let (l, r, _) := altChain fuel seg (rest.dropWhile isSegChar)
        (l, r, true)
    | _ => (lastSeg, cs, false)

/-- `re.sub(r'(?:[^.[\]]+\.)+((?:[^.[\]]+))', r'\1', x)` (line 1918):
replace every maximal `seg.seg.….seg` run (at least one dot) by its last
segment.  A failed match at a segment start cannot succeed at any later
position inside that segment, so scanning segment-by-segment agrees with the
regex engine.  Fuel = input length; every step consumes at least one
character. -/
def shortenAux : Nat → List Char → List Char
  | 0, cs => cs
  | _ + 1, [] => []
  | fuel + 1, c :: rest =>
    if isSegChar c then
      let seg := (c :: rest).takeWhile isSegChar
      let after := (c :: rest).dropWhile isSegChar
      let (lastSeg, rest₂, matched) := altChain fuel seg after
      if matched then lastSeg ++ shortenAux fuel rest₂
      else seg ++ shortenAux fuel after
    else c :: shortenAux fuel rest

def shorten (cs : List Char) : List Char := shortenAux (cs.length + 1) cs

/-- Python `str.title()` restricted to ASCII names: a letter is uppercased
when the previous character is not a letter, lowercased otherwise. -/
def pyTitleAux : Bool → List Char → List Char
  | _, [] => []
  | prevAlpha, c :: rest =>
    if c.isAlpha then
      (if prevAlpha then c.toLower else c.toUpper) :: pyTitleAux true rest
    else c :: pyTitleAux false rest

/-- `get_title_from_name` (lines 1846-1855): `name.title().replace('_', ' ')`. -/
def get_title_from_name (name : String) : String :=
  String.mk ((pyTitleAux false name.toList).map (fun c => if c = '_' then ' ' else c))

/- ### Warnings (`emit_warning` / `render_warning_message`, lines 2145-2171) -/

/-- `JsonSchemaWarningKind` (line 108). -/
inductive WarningKind where
  | skippedChoice
  | nonSerializableDefault
deriving DecidableEq, Repr

def WarningKind.tag : WarningKind → String
  | .skippedChoice => "skipped-choice"
  | .nonSerializableDefault => "non-serializable-default"

/-- `render_warning_message` (lines 2151-2171): `None` (no warning) when the
kind is in the instance's `ignored_warning_kinds`, else the formatted
message. -/
def render_warning_message (ignoredWarningKinds : List WarningKind)
    (kind : WarningKind) (detail : String) : Option String :=
  if kind ∈ ignoredWarningKinds then none
  else some (detail ++ " [" ++ kind.tag ++ "]")

/-- The class-level default `ignored_warning_kinds = {'skipped-choice'}`
(line 253). -/
def defaultIgnoredWarningKinds : List WarningKind := [.skippedChoice]

/- ### Generator state (`GenerateJsonSchema.__init__`, lines 255-289) -/

/-- The constructor arguments plus the per-class configuration the generator
reads: `by_alias` and `ref_template` are `__init__` parameters (line 255);
`json_schema_serialization_defaults_required` is the config flag consulted
by `field_is_required` (line 1523).  The embedded fragment carries no
per-model config pushes, so the config-wrapper stack is a constant. -/
structure GenConfig where
  by_alias : Bool := true
  ref_template : String := DEFAULT_REF_TEMPLATE
  json_schema_serialization_defaults_required : Bool := false
deriving DecidableEq, Repr

/-- The mutable attributes of a `GenerateJsonSchema` instance (lines
255-289).  `core_defs_invalid` stores, per DefsRef, the message of a
`PydanticInvalidForJsonSchema` kept in
`_core_defs_invalid_for_json_schema`; `warnEvents` records each
`emit_warning(kind, detail)` call — the messages actually emitted are
`warnEvents.filterMap (render_warning_message ignored)`, since
`emit_warning` (lines 2145-2149) warns exactly when the renderer returns a
message. -/
structure GenState where
  core_to_json_refs : List ((String × Mode) × String) := []
  core_to_defs_refs : List ((String × Mode) × String) := []
  defs_to_core_refs : List (String × (String × Mode)) := []
  json_to_defs_refs : List (String × String) := []
  definitions : JObj := []
  prioritized_defsref_choices : List (String × List String) := []
  collision_counter : List (String × Nat) := []
  collision_index : List (String × Nat) := []
  core_defs_invalid : List (String × String) := []
  mode : Mode := .validation
  used : Bool := false
  warnEvents : List (WarningKind × String) := []
deriving DecidableEq, Repr

/-- A fresh instance: `GenerateJsonSchema(by_alias=..., ref_template=...)`. -/
def initState : GenState := {}

/-- The generator computations: explicit state plus Python exceptions.
`tryCatch` on this stack keeps the state mutated before a raise, exactly as
Python `try`/`except` does. -/
abbrev GenM (α : Type) := ExceptT PyErr (StateM GenState) α

def runGen {α : Type} (m : GenM α) (st : GenState) : Except PyErr α × GenState :=
  ExceptT.run m st

/-- `emit_warning` (lines 2145-2149): record the event; the message stream
observable for a given ignore-set is recovered with
`render_warning_message`. -/
def emit_warning (kind : WarningKind) (detail : String) : GenM PUnit :=
  modify (fun st => { st with warnEvents := st.warnEvents ++ [(kind, detail)] })

/-- `handle_invalid_for_json_schema` (lines 2142-2143). -/
def handle_invalid_for_json_schema (errorInfo : String) : GenM JVal :=
  throw (.invalidForJsonSchema ("Cannot generate a JsonSchema for " ++ errorInfo))

/- ### Definitions registry (lines 1902-1975, 2017-2021) -/

/-- `get_defs_ref` (lines 1902-1948): derive the candidate names for a
`(CoreRef, mode)` pair, allocate the occurrence index from the collision
counters, record the prioritized choices, and return the fully-qualified
mode- and occurrence-tagged working name. -/
def get_defs_ref (coreRef : String) (mode : Mode) : GenM String := do
  let cs := coreRef.toList
  let components := splitComponents cs
  let components := components.map dropAfterLastColon
  let coreRefNoId := components.foldr (· ++ ·) []
  let shortRef := (components.map shorten).foldr (· ++ ·) []
  let mt := modeTitle mode
  let name := normalize_name (String.mk shortRef)
  let nameMode := name ++ "-" ++ mt
  let moduleQualname := normalize_name (String.mk coreRefNoId)
  let moduleQualnameMode := moduleQualname ++ "-" ++ mt
  let moduleQualnameId := normalize_name coreRef
  let st ← get
  let occurrenceIndex ←
    match alookup st.collision_index moduleQualnameId with
    | some i => pure i
    | none => do
      let cnt := (alookup st.collision_counter moduleQualname).getD 0 + 1
      modify (fun st => { st with
        collision_counter := aset st.collision_counter moduleQualname cnt,
        collision_index := aset st.collision_index moduleQualnameId cnt })
      pure cnt
  let mqo := moduleQualname ++ "__" ++ toString occurrenceIndex
  let mqom := moduleQualnameMode ++ "__" ++ toString occurrenceIndex
  let fullChoices := [name, nameMode, moduleQualname, moduleQualnameMode, mqo, mqom]
  modify (fun st =>
    { st with prioritized_defsref_choices := aset st.prioritized_defsref_choices mqom fullChoices })
  pure mqom

/-- `get_cache_defs_ref_schema` (lines 1950-1975): on a cache hit return the
cached DefsRef and a bare `$ref` fragment without touching any table; on a
miss call `get_defs_ref`, record the three-way mapping and return the new
bare `$ref` fragment. -/
def get_cache_defs_ref_schema (cfg : GenConfig) (coreRef : String) :
    GenM (String × JVal) := do
  let st ← get
  let coreModeRef := (coreRef, st.mode)
  match alookup st.core_to_defs_refs coreModeRef with
  | some defsRef =>
    match alookup st.core_to_json_refs coreModeRef with
    | some jsonRef => pure (defsRef, .obj [("$ref", .str jsonRef)])
    | none => throw (.keyError coreRef)
  | none => do
    let defsRef ← get_defs_ref coreRef st.mode
    modify (fun st => { st with
      core_to_defs_refs := aset st.core_to_defs_refs coreModeRef defsRef,
      defs_to_core_refs := aset st.defs_to_core_refs defsRef coreModeRef })
    let jsonRef := format_ref cfg.ref_template defsRef
    modify (fun st => { st with
      core_to_json_refs := aset st.core_to_json_refs coreModeRef jsonRef,
      json_to_defs_refs := aset st.json_to_defs_refs jsonRef defsRef })
    pure (defsRef, .obj [("$ref", .str jsonRef)])

/-- `get_schema_from_definitions` (lines 2017-2021): `KeyError` on an
unknown JsonRef, re-raise a stored `PydanticInvalidForJsonSchema`, else the
definition (or `None`). -/
def get_schema_from_definitions (jsonRef : String) : GenM (Option JVal) := do
  let st ← get
  match alookup st.json_to_defs_refs jsonRef with
  | none => throw (.keyError jsonRef)
  | some defRef =>
    match alookup st.core_defs_invalid defRef with
    | some msg => throw (.invalidForJsonSchema msg)
    | none => pure (dget st.definitions defRef)

/- ### The embedded IR fragment (core schemas, lines 539-1817) -/

/-- One element of a discriminator alias path (`str | int`). -/
inductive AliasItem where
  | str (s : String)
  | int (n : Int)
deriving DecidableEq, Repr

/-- A field alias: either a plain string alias or a list of alias paths
(the list-of-single-string-lists shape consulted by `_get_alias_name`,
lines 1314-1321). -/
inductive AliasVal where
  | str (s : String)
  | paths (ps : List (List AliasItem))
deriving DecidableEq, Repr

/-- An element of `schema['discriminator']` when it is a list: an alias
path (a list of str/int items) or a plain string. -/
inductive DiscrElem where
  | path (items : List AliasItem)
  | strElem (s : String)
deriving DecidableEq, Repr

/-- `schema['discriminator']` of a tagged union: a string, a list of alias
paths / strings, or a callable (which `_extract_discriminator` ignores). -/
inductive Discriminator where
  | str (s : String)
  | list (elems : List DiscrElem)
  | callable
deriving DecidableEq, Repr

/-- The `type` tag of a field wrapper (`model-field` / `typed-dict-field` /
`dataclass-field`), which `field_is_required` branches on. -/
inductive FieldKind where
  | modelField
  | typedDictField
  | dataclassField
deriving DecidableEq, Repr

/-- The non-schema attributes of a field wrapper. -/
structure FieldInfo where
  kind : FieldKind := .modelField
  validation_alias : Option AliasVal := none
  serialization_alias : Option AliasVal := none
  serialization_exclude : Option Bool := none
  required_flag : Option Bool := none
deriving DecidableEq, Repr

/-- The embedded fragment of `pydantic_core` IR nodes.  Every node that can
carry a `'ref'` key does so as its last argument.  Fields are inlined as
`(name, info, schema)` triples (the source's field wrappers are not core
schemas: `generate_inner` applies no caching or `populate_defs` to them and
their handlers simply recurse into the inner schema, lines 1326-1358).
Nodes of this fragment carry no `serialization` sub-schema and no metadata
hook functions, so the `ser_schema` branch (line 484) and the
`pydantic_js_functions` chains (lines 500-531) are never active. -/
inductive CoreSchema where
  | noneS (ref : Option String)
  | boolS (ref : Option String)
  | intS (multipleOf le ge lt gt : Option Int) (ref : Option String)
  | strS (minLength maxLength : Option Nat) (pattern : Option String) (ref : Option String)
  | callableS (ref : Option String)
  | withDefault (inner : CoreSchema) (hasDefault : Bool) (defaultVal : JVal) (ref : Option String)
  | nullableS (inner : CoreSchema) (ref : Option String)
  | unionS (choices : List (CoreSchema × Option String)) (ref : Option String)
  | taggedUnionS (choices : List (String × CoreSchema)) (discr : Discriminator) (ref : Option String)
  | modelFieldsS (fields : List (String × FieldInfo × CoreSchema)) (ref : Option String)
  | typedDictS (fields : List (String × FieldInfo × CoreSchema)) (total : Option Bool) (ref : Option String)
  | definitionsS (defs : List CoreSchema) (inner : CoreSchema)
  | definitionRefS (schemaRef : String)
deriving Repr

/-- `'ref' in schema` / `schema['ref']`: `definitions` and `definition-ref`
nodes carry no `'ref'` key. -/
def CoreSchema.getRef : CoreSchema → Option String
  | .noneS r | .boolS r | .callableS r => r
  | .intS _ _ _ _ _ r => r
  | .strS _ _ _ r => r
  | .withDefault _ _ _ r => r
  | .nullableS _ r => r
  | .unionS _ r => r
  | .taggedUnionS _ _ r => r
  | .modelFieldsS _ r => r
  | .typedDictS _ _ r => r
  | .definitionsS _ _ => none
  | .definitionRefS _ => none

/-- Python truthiness of `schema.get('ref')` (an empty string is falsy). -/
def refTruthy : Option String → Bool
  | some s => s ≠ ""
  | none => false

/-- `field_title_should_be_set` (lines 1857-1889) as it acts on core
schemas: refs (and `definition-ref`s) suppress titles; `default`,
`nullable` and `definitions` recurse into their inner schema; everything
else gets a title.  A field wrapper recurses into its inner schema
(lines 1868-1873), so the per-field call sites pass the field's schema. -/
def field_title_should_be_set (s : CoreSchema) : Bool :=
  if refTruthy s.getRef then false
  else
    match s with
    | .withDefault inner _ _ _ => field_title_should_be_set inner
    | .nullableS inner _ => field_title_should_be_set inner
    | .definitionsS _ inner => field_title_should_be_set inner
    | .definitionRefS _ => false
    | _ => true

/-- `field_is_present` (lines 1489-1505). -/
def field_is_present (mode : Mode) (f : FieldInfo) : Bool :=
  match mode with
  | .serialization => ¬ (f.serialization_exclude.getD false)
  | .validation => true

/-- `field_is_required` (lines 1507-1529). -/
def field_is_required (cfg : GenConfig) (mode : Mode) (f : FieldInfo)
    (fieldSchema : CoreSchema) (total : Bool) : Bool :=
  if mode = .serialization ∧ cfg.json_schema_serialization_defaults_required then
    ¬ (f.serialization_exclude.getD false)
  else
    match f.kind with
    | .typedDictField => f.required_flag.getD total
    | _ =>
      match fieldSchema with
      | .withDefault _ _ _ _ => false
      | _ => true

/-- `_get_alias_name` (lines 1305-1324) for model/dataclass/typed-dict
fields (no computed fields in the fragment): a missing alias keeps the
field name; a string alias replaces it; an alias-path list replaces it with
the first single-element string path found. -/
def get_alias_name (mode : Mode) (f : FieldInfo) (name : String) : String :=
  let aliasVal :=
    match mode with
    | .validation => f.validation_alias
    | .serialization => f.serialization_alias
  match aliasVal with
  | none => name
  | some (.str a) => a
  | some (.paths ps) =>
    match ps.find? (fun p => match p with | [.str _] => true | _ => false) with
    | some [.str a] => a
    | _ => name

/-- Reading the entries of a value the source treats as a dict (a non-dict
here would raise `TypeError`/`AttributeError` in Python). -/
def objEntries (v : JVal) : GenM JObj :=
  match v with
  | .obj es => pure es
  | _ => throw (.typeError "expected a dict")

/-- `handle_ref_overrides` (lines 1977-2015). -/
def handle_ref_overrides (js : JVal) : GenM JVal := do
  match js with
  | .obj entries =>
    match dget entries "$ref" with
    | none => pure js
    | some (.str refStr) => do
      let referenced ← get_schema_from_definitions refStr
      match referenced with
      | none =>
        if entries.length > 1 then do
          let allOfVal := (dget entries "allOf").getD (.arr [])
          match allOfVal with
          | .arr xs =>
            let entries := dset entries "allOf" (.arr (xs ++ [.obj [("$ref", .str refStr)]]))
            pure (.obj (adel entries "$ref"))
          | _ => throw (.typeError "allOf is not a list")
        else pure js
      | some refd => do
        let refdEntries ← objEntries refd
        let remaining := entries.filter (fun e =>
          if e.1 = "$ref" then true
          else
            match alookup refdEntries e.1 with
            | some v₂ => ¬ pyEq e.2 v₂
            | none => true)
        if remaining.length > 1 then
          pure (.obj (aset (adel remaining "$ref") "allOf" (.arr [.obj [("$ref", .str refStr)]])))
        else pure (.obj remaining)
    | some _ => throw (.keyError "$ref")
  | _ => throw (.typeError "expected a dict")

/-- The member loop of `get_flattened_anyof` (lines 2104-2109): a member
that is a pure single-key `anyOf` schema is spliced inline
(`members.extend`), any other member is appended whole. -/
def flattenMembers : List JVal → List JVal
  | [] => []
  | s :: rest =>
    (match s with
     | .obj [("anyOf", .arr xs)] => xs
     | _ => [s]) ++ flattenMembers rest

/-- `get_flattened_anyof` (lines 2102-2112): splice pure single-key `anyOf`
members, deduplicate structurally, and return a post-deduplication
singleton bare. -/
def get_flattened_anyof (schemas : List JVal) : JVal :=
  let members := deduplicate_schemas (flattenMembers schemas)
  match members with
  | [m] => m
  | ms => .obj [("anyOf", .arr ms)]

/-- The `while '$ref' in choice` resolution of `_extract_discriminator`
(lines 1178-1180), fuel-bounded (the source would loop forever on a cyclic
`$ref` chain among definitions; the call sites pass one more than the
number of definitions, enough for any acyclic chain). -/
def resolveRefChoice : Nat → JVal → GenM JVal
  | 0, _ => throw .fuelExhausted
  | fuel + 1, c =>
    match c with
    | .obj entries =>
      match dget entries "$ref" with
      | some (.str r) => do
        let s ← get_schema_from_definitions r
        resolveRefChoice fuel (s.getD (.obj []))
      | some _ => throw (.typeError "choice $ref is not a string")
      | none => pure c
    | c' => pure c'

/-- Lines 1176-1184: whether `alias` is a declared property on every
(ref-resolved) oneOf branch. -/
def aliasPresentOnAll (aliasName : String) : List JVal → GenM Bool
  | [] => pure true
  | c :: rest => do
    let st ← get
    let resolved ← resolveRefChoice (st.definitions.length + 1) c
    let es ← objEntries resolved
    match (dget es "properties").getD (.obj []) with
    | .obj properties =>
      if ahas properties aliasName then aliasPresentOnAll aliasName rest else pure false
    | _ => pure false

/-- The candidate scan of `_extract_discriminator` (lines 1168-1187): a
non-list element aborts the scan; a path is a candidate only when it is a
single-element string list; the first candidate present on every branch
wins. -/
def scanAliasPaths (oneOfChoices : List JVal) : List DiscrElem → GenM (Option String)
  | [] => pure none
  | .strElem _ :: _ => pure none
  | .path items :: rest =>
    match items with
    | [.str a] => do
      let ok ← aliasPresentOnAll a oneOfChoices
      if ok then pure (some a) else scanAliasPaths oneOfChoices rest
    | _ => scanAliasPaths oneOfChoices rest

/-- `_extract_discriminator` (lines 1150-1188). -/
def extract_discriminator (d : Discriminator) (oneOfChoices : List JVal) :
    GenM (Option String) :=
  match d with
  | .str s => pure (some s)
  | .callable => pure none
  | .list [.strElem s] => pure (some s)
  | .list elems => scanAliasPaths oneOfChoices elems

/-- `populate_defs` (lines 446-459): register a ref-bearing node, store its
raw fragment as a definition unless the fragment is exactly its own `$ref`,
and return the bare `$ref` fragment. -/
def populate_defs (cfg : GenConfig) (schema : CoreSchema) (js : JVal) : GenM JVal := do
  match schema.getRef with
  | none => pure js
  | some coreRef => do
    let (defsRef, refJson) ← get_cache_defs_ref_schema cfg coreRef
    let refEntries ← objEntries refJson
    let jsonRef ←
      match dget refEntries "$ref" with
      | some (.str r) => pure r
      | _ => throw (.keyError "$ref")
    modify (fun st =>
      { st with json_to_defs_refs := aset st.json_to_defs_refs jsonRef defsRef })
    let jsEntries ← objEntries js
    if dget jsEntries "$ref" ≠ some (.str jsonRef) then
      modify (fun st =>
        { st with
          definitions := aset st.definitions defsRef js,
          core_defs_invalid := adel st.core_defs_invalid defsRef })
    pure refJson

/-- `convert_to_all_of` (lines 461-468): a `$ref` with sibling keys becomes
`{'allOf': [{'$ref': ref}], **rest}` (a dict literal with spread, so a
pre-existing `allOf` among the siblings would win back its value). -/
def convert_to_all_of (js : JVal) : GenM JVal := do
  let es ← objEntries js
  if dhas es "$ref" ∧ es.length > 1 then
    match dget es "$ref" with
    | some refV =>
      pure (.obj (collapseEntries
        (("allOf", .arr [.obj [("$ref", refV)]]) :: adel es "$ref")))
    | none => pure js
  else pure js

/-- `{'type': 'object', 'properties': ...}` plus `required` when non-empty
(lines 1300-1303). -/
def named_fields_result (props : JObj) (req : List String) : JVal :=
  let js : JObj := [("type", .str "object"), ("properties", .obj props)]
  .obj (if req.isEmpty then js else js ++ [("required", .arr (req.map JVal.str))])

mutual
/-- `generate_inner` (lines 425-537) on the embedded fragment.  With no
metadata hook functions present, the handler chain is `handler_func`
alone; `populate_defs` + `convert_to_all_of` therefore run twice for core
schemas: once in the `handler_func` tail (lines 493-495) and once after
the chain (lines 533-537). -/
def generate_inner (cfg : GenConfig) (schema : CoreSchema) : GenM JVal := do
  let st ← get
  -- lines 437-441: short-circuit to a `$ref` when this CoreRef was already
  -- handled in this mode and its definition has been populated
  let shortCircuit : Option (GenM JVal) :=
    match schema.getRef with
    | some coreRef =>
      match alookup st.core_to_defs_refs (coreRef, st.mode) with
      | some defsRef =>
        if ahas st.definitions defsRef then
          some
            (match alookup st.core_to_json_refs (coreRef, st.mode) with
             | some jr => pure (.obj [("$ref", .str jr)])
             | none => throw (.keyError coreRef))
        else none
      | none => none
    | none => none
  match shortCircuit with
  | some m => m
  | none => do
    let js ←
      match schema with
      | .noneS _ => pure (JVal.obj [("type", .str "null")])
      | .boolS _ => pure (JVal.obj [("type", .str "boolean")])
      | .intS multipleOf le ge lt gt _ =>
        -- int_schema (lines 573-585); the ±inf filter never acts on ints
        let js : JObj := [("type", .str "integer")]
        let js := match multipleOf with | some v => dset js "multipleOf" (.int v) | none => js
        let js := match le with | some v => dset js "maximum" (.int v) | none => js
        let js := match ge with | some v => dset js "minimum" (.int v) | none => js
        let js := match lt with | some v => dset js "exclusiveMaximum" (.int v) | none => js
        let js := match gt with | some v => dset js "exclusiveMinimum" (.int v) | none => js
        pure (JVal.obj js)
      | .strS minLength maxLength pattern _ =>
        -- str_schema (lines 634-648); fragment patterns are plain strings
        let js : JObj := [("type", .str "string")]
        let js := match minLength with | some v => dset js "minLength" (.int v) | none => js
        let js := match maxLength with | some v => dset js "maxLength" (.int v) | none => js
        let js := match pattern with | some v => dset js "pattern" (.str v) | none => js
        pure (JVal.obj js)
      | .callableS _ =>
        -- callable_schema (lines 809-820)
        handle_invalid_for_json_schema "core_schema.CallableSchema"
      | .withDefault inner hasDefault defaultVal _ => do
        -- default_schema (lines 1017-1068); no serialization sub-schema in
        -- the fragment, and encode_default delegates to the external
        -- serializer, the identity on the fragment's JSON-native defaults
        -- (so the non-serializable-default warning path cannot trigger)
        let js ← generate_inner cfg inner
        if hasDefault then do
          let es ← objEntries js
          if dhas es "$ref" then
            pure (JVal.obj [("allOf", .arr [js]), ("default", defaultVal)])
          else pure (JVal.obj (dset es "default" defaultVal))
        else pure js
      | .nullableS inner _ => do
        -- nullable_schema (lines 1070-1087)
        let nullSchema := JVal.obj [("type", .str "null")]
        let innerJs ← generate_inner cfg inner
        if pyEq innerJs nullSchema then pure nullSchema
        else pure (get_flattened_anyof [innerJs, nullSchema])
      | .unionS choices _ => do
        -- union_schema (lines 1089-1113)
        let generated ← gen_union_choices cfg choices
        match generated with
        | [g] => pure g
        | gs => pure (get_flattened_anyof gs)
      | .taggedUnionS choices discr _ => do
        -- tagged_union_schema (lines 1115-1148)
        let generated ← gen_tagged_choices cfg choices []
        let oneOfChoices := deduplicate_schemas (generated.map Prod.snd)
        let discrOpt ← extract_discriminator discr oneOfChoices
        match discrOpt with
        | some propertyName =>
          let mapping := generated.map (fun e =>
            (e.1,
              match e.2 with
              | .obj es => (dget es "$ref").getD e.2
              | v => v))
          pure (JVal.obj
            [("oneOf", .arr oneOfChoices),
             ("discriminator",
              .obj [("propertyName", .str propertyName), ("mapping", .obj mapping)])])
        | none => pure (JVal.obj [("oneOf", .arr oneOfChoices)])
      | .modelFieldsS fields _ => do
        -- model_fields_schema (lines 1466-1487): the present-filter and
        -- field_is_required(total=True) comprehension fused (both pure)
        -- with the _named_required_fields_schema loop; no computed fields
        -- or extras_schema in the fragment
        let (props, req) ← gen_fields cfg true fields [] []
        pure (named_fields_result props req)
      | .typedDictS fields total _ => do
        -- typed_dict_schema (lines 1236-1272): no attached class or config
        -- in the fragment, so the extra-behavior handling is the default
        -- 'ignore' no-op
        let (props, req) ← gen_fields cfg (total.getD true) fields [] []
        pure (named_fields_result props req)
      | .definitionsS defs inner => do
        -- definitions_schema (lines 1788-1804)
        gen_definitions_list cfg defs
        generate_inner cfg inner
      | .definitionRefS schemaRef => do
        -- definition_ref_schema (lines 1806-1817)
        let (_, refJson) ← get_cache_defs_ref_schema cfg schemaRef
        pure refJson
    let js ← populate_defs cfg schema js
    let js ← convert_to_all_of js
    let js ← populate_defs cfg schema js
    convert_to_all_of js
termination_by structural schema

/-- The choice loop of `union_schema` (lines 1099-1110): `PydanticOmit`
skips silently, `PydanticInvalidForJsonSchema` is reported as a
skipped-choice warning and the choice dropped, anything else propagates. -/
def gen_union_choices (cfg : GenConfig) :
    List (CoreSchema × Option String) → GenM (List JVal)
  | [] => pure []
  | (choiceSchema, _) :: rest => do
    let res ← tryCatch
      (do
        let g ← generate_inner cfg choiceSchema
        pure (some g))
      (fun e =>
        match e with
        | .omit => pure none
        | .invalidForJsonSchema msg => do
          emit_warning .skippedChoice msg
          pure none
        | e' => throw e')
    let others ← gen_union_choices cfg rest
    match res with
    | some g => pure (g :: others)
    | none => pure others
termination_by structural l => l

/-- The choice loop of `tagged_union_schema` (lines 1124-1135), with dict
insertion semantics for the `generated` map. -/
def gen_tagged_choices (cfg : GenConfig) :
    List (String × CoreSchema) → List (String × JVal) → GenM (List (String × JVal))
  | [], acc => pure acc
  | (k, v) :: rest, acc => do
    let res ← tryCatch
      (do
        let g ← generate_inner cfg v
        pure (some g))
      (fun e =>
        match e with
        | .omit => pure none
        | .invalidForJsonSchema msg => do
          emit_warning .skippedChoice msg
          pure none
        | e' => throw e')
    match res with
    | some g => gen_tagged_choices cfg rest (aset acc k g)
    | none => gen_tagged_choices cfg rest acc
termination_by structural l _ => l

/-- The field loop of `_named_required_fields_schema` (lines 1280-1299),
fused with the per-node present/required comprehension: skip absent
fields, alias the name under `by_alias`, generate the field schema
(`PydanticOmit` skips the field), set a title when appropriate, apply
`handle_ref_overrides`, and record the name under `required` when the
field is required. -/
def gen_fields (cfg : GenConfig) (total : Bool) :
    List (String × FieldInfo × CoreSchema) → JObj → List String →
    GenM (JObj × List String)
  | [], props, req => pure (props, req)
  | (name, info, fschema) :: rest, props, req => do
    let st ← get
    if field_is_present st.mode info then do
      let required := field_is_required cfg st.mode info fschema total
      let name := if cfg.by_alias then get_alias_name st.mode info name else name
      let res ← tryCatch
        (do
          let g ← generate_inner cfg fschema
          pure (some g))
        (fun e =>
          match e with
          | .omit => pure none
          | e' => throw e')
      match res with
      | none => gen_fields cfg total rest props req
      | some fieldJs => do
        let es ← objEntries fieldJs
        let es :=
          if ¬ dhas es "title" ∧ field_title_should_be_set fschema then
            dset es "title" (.str (get_title_from_name name))
          else es
        let fieldJs ← handle_ref_overrides (.obj es)
        gen_fields cfg total rest (dset props name fieldJs)
          (if required then req ++ [name] else req)
    else gen_fields cfg total rest props req
termination_by structural l _ _ => l

/-- The definitions loop of `definitions_schema` (lines 1797-1803): build
every definition eagerly, storing a raised
`PydanticInvalidForJsonSchema` under the definition's DefsRef instead of
failing (`definition['ref']` raises `KeyError` when absent). -/
def gen_definitions_list (cfg : GenConfig) : List CoreSchema → GenM PUnit
  | [] => pure ()
  | d :: rest => do
    tryCatch
      (do
        let _ ← generate_inner cfg d
        pure ())
      (fun e =>
        match e with
        | .invalidForJsonSchema msg => do
          match d.getRef with
          | some coreRef => do
            let st ← get
            let defsRef ← get_defs_ref coreRef st.mode
            modify (fun st =>
              { st with core_defs_invalid := aset st.core_defs_invalid defsRef msg })
          | none => throw (.keyError "ref")
        | e' => throw e')
    gen_definitions_list cfg rest
termination_by structural l => l
end

/- ### Top-level pipeline (`generate` / `generate_definitions`, lines 328-423) -/

mutual
/-- A node-count bound on a JSON value, used to size loop fuels. -/
def jsize : JVal → Nat
  | .obj entries => 1 + jsizeObj entries
  | .arr items => 1 + jsizeArr items
  | _ => 1
termination_by structural v => v

def jsizeArr : List JVal → Nat
  | [] => 1
  | v :: rest => 1 + jsize v + jsizeArr rest
termination_by structural l => l

def jsizeObj : List (String × JVal) → Nat
  | [] => 1
  | (_, v) :: rest => 1 + jsize v + jsizeObj rest
termination_by structural l => l
end

/-- `_add_json_refs` inside `get_json_ref_counts` (lines 2118-2137): count
every `$ref`, descending once into the definition behind each
newly-visited ref (`json_to_defs_refs[...]` / `definitions[...]` raise
`KeyError`; a stored `PydanticInvalidForJsonSchema` is re-raised).  A
visited or non-string ref returns without iterating the dict's values.
Fuel-structural; the call site passes a bound exceeding every possible
visit count. -/
def addJsonRefs : Nat → JVal → List (String × Int) → GenM (List (String × Int))
  | 0, _, _ => throw .fuelExhausted
  | fuel + 1, js, counts =>
    match js with
    | .obj entries => do
      let (cont, counts) ←
        (match dget entries "$ref" with
         | some (.str jsonRef) => do
           let already := ahas counts jsonRef
           let counts := aset counts jsonRef ((alookup counts jsonRef).getD 0 + 1)
           if already then pure (false, counts)
           else do
             let st ← get
             match alookup st.json_to_defs_refs jsonRef with
             | none => throw (.keyError jsonRef)
             | some defsRef =>
               match alookup st.core_defs_invalid defsRef with
               | some msg => throw (.invalidForJsonSchema msg)
               | none =>
                 match alookup st.definitions defsRef with
                 | none => throw (.keyError defsRef)
                 | some defJs => do
                   let counts ← addJsonRefs fuel defJs counts
                   pure (true, counts)
         | some _ => pure (false, counts)
         | none => pure (true, counts))
      if cont then
        entries.foldlM (fun cts e => addJsonRefs fuel e.2 cts) counts
      else pure counts
    | .arr items => items.foldlM (fun cts v => addJsonRefs fuel v cts) counts
    | _ => pure counts

/-- `get_json_ref_counts` (lines 2114-2140).  At most
`json_to_defs_refs.length` definition-descents can happen (one per
newly-visited ref), each traversing one definition, so the fuel below
strictly exceeds every possible visit count. -/
def get_json_ref_counts (js : JVal) : GenM (List (String × Int)) := do
  let st ← get
  let fuel :=
    jsize js +
      (st.json_to_defs_refs.length + 1) *
        ((st.definitions.map (fun e => jsize e.2)).sum + 1) + 1
  addJsonRefs fuel js []

/-- The top-level `$ref` unpacking loop of `generate` (lines 397-408): a
bare(-able) top-level ref is inlined (as a top-level-shallow dict copy of
its definition, decrementing its count) when it is referenced at most once
and its definition exists, and `allOf`-wrapped otherwise.  Fuel-structural;
the registry-consistent states the pipeline produces give any revisited
ref a count of at least 2, which ends the loop, and the call site passes a
fuel exceeding the total count mass. -/
def unpackRefLoop : Nat → List (String × Int) → JVal →
    GenM (JVal × List (String × Int))
  | 0, _, _ => throw .fuelExhausted
  | fuel + 1, counts, js => do
    let entries ← objEntries js
    match dget entries "$ref" with
    | none => pure (js, counts)
    | some (.str ref) => do
      let refJsonSchema ← get_schema_from_definitions ref
      let cnt := (alookup counts ref).getD 0
      if cnt > 1 ∨ refJsonSchema = none then
        unpackRefLoop fuel counts (.obj [("allOf", .arr [.obj [("$ref", .str ref)]])])
      else do
        let d := refJsonSchema.getD (.obj [])
        let counts := aset counts ref (cnt - 1)
        unpackRefLoop fuel counts d
    | some _ => throw (.keyError "$ref")

/-- The worklist of `_garbage_collect_definitions` (lines 2184-2193): pop a
ref, resolve it (`KeyError` on unknown refs or missing definitions), and
push the refs of newly-visited definitions.  The source pops from a set in
unspecified order; the visited result is the same closure.  Fuel-structural
with the caller passing one more than the total number of pushable refs. -/
def gcLoop : Nat → List String → List String → GenM (List String)
  | 0, _, _ => throw .fuelExhausted
  | _ + 1, visited, [] => pure visited
  | fuel + 1, visited, ref :: work => do
    let st ← get
    match alookup st.json_to_defs_refs ref with
    | none => throw (.keyError ref)
    | some defsRef =>
      if defsRef ∈ visited then gcLoop fuel visited work
      else
        match alookup st.definitions defsRef with
        | none => throw (.keyError defsRef)
        | some defJs => gcLoop fuel (visited ++ [defsRef]) (work ++ refsOf defJs)

/-- `_garbage_collect_definitions` (lines 2184-2195): keep exactly the
definitions visited from the document's refs. -/
def garbage_collect_definitions (js : JVal) : GenM PUnit := do
  let st ← get
  let fuel :=
    (refsOf js).length +
      (st.definitions.map (fun e => (refsOf e.2).length)).sum + 1
  let visited ← gcLoop fuel [] (refsOf js)
  modify (fun st =>
    { st with definitions := st.definitions.filter (fun e => decide (e.1 ∈ visited)) })

/-- `_build_definitions_remapping` (lines 2173-2182). -/
def build_definitions_remapping (cfg : GenConfig) : GenM Remapping := do
  let st ← get
  let defsToJson := st.prioritized_defsref_choices.foldl
    (fun acc e =>
      e.2.foldl (fun acc dr => aset acc dr (format_ref cfg.ref_template dr)) acc)
    []
  match from_prioritized_choices st.prioritized_defsref_choices defsToJson st.definitions with
  | .ok r => pure r
  | .error e => throw e

/-- The message of the instance-reuse error (lines 388-392, 350-354), with
the default class name interpolated. -/
def alreadyUsedMessage : String :=
  "This JSON schema generator has already been used to generate a JSON schema. You must create a new instance of GenerateJsonSchema to generate a new JSON schema."

def alreadyUsedError : PyErr := .userError alreadyUsedMessage "json-schema-already-used"

/-- `generate` (lines 373-423). -/
def generate (cfg : GenConfig) (schema : CoreSchema) (mode : Mode) : GenM JVal := do
  modify (fun st => { st with mode := mode })
  let st ← get
  if st.used then throw alreadyUsedError
  let jsonSchema ← generate_inner cfg schema
  let counts ← get_json_ref_counts jsonSchema
  let fuel := (counts.map (fun e => e.2.toNat)).sum + counts.length + 1
  let (jsonSchema, _) ← unpackRefLoop fuel counts jsonSchema
  garbage_collect_definitions jsonSchema
  let remapping ← build_definitions_remapping cfg
  let st ← get
  let jsonSchema ←
    if st.definitions.isEmpty then pure jsonSchema
    else do
      let es ← objEntries jsonSchema
      pure (JVal.obj (dset es "$defs" (.obj st.definitions)))
  let jsonSchema := remap_json_schema remapping jsonSchema
  modify (fun st => { st with used := true })
  pure (sort_json_schema jsonSchema none)

/-- `generate_definitions` (lines 328-371): the used check, a first
generation pass over all inputs, the remapping, a second pass building the
key-indexed map, and the remapped, key-sorted shared `$defs` table.  (No
garbage collection happens here.) -/
def generate_definitions (cfg : GenConfig)
    (inputs : List (String × Mode × CoreSchema)) :
    GenM (List ((String × Mode) × JVal) × JVal) := do
  let st ← get
  if st.used then throw alreadyUsedError
  inputs.forM (fun i => do
    modify (fun st => { st with mode := i.2.1 })
    let _ ← generate_inner cfg i.2.2
    pure ())
  let remapping ← build_definitions_remapping cfg
  let jsMap ← inputs.foldlM
    (fun acc i => do
      modify (fun st => { st with mode := i.2.1 })
      let js ← generate_inner cfg i.2.2
      pure (aset acc (i.1, i.2.1) (remap_json_schema remapping js)))
    []
  let st ← get
  let defsJson := remap_json_schema remapping (.obj [("$defs", .obj st.definitions)])
  modify (fun st => { st with used := true })
  match defsJson with
  | .obj es =>
    match dget es "$defs" with
    | some d => pure (jsMap, sort_json_schema d none)
    | none => throw (.keyError "$defs")
  | _ => throw (.keyError "$defs")

/- ### Auxiliary definitions for the claim analysis -/

/-- The spec phrase 'carries a default': the field schema is a
`with-default` wrapper (so a `default` key would be attached to its JSON
schema).  Stated from the spec wording, to be compared with the source's
`field_is_required`. -/
def carries_default : CoreSchema → Bool
  | .withDefault _ _ _ _ => true
  | _ => false

/-- The spec's scenario-4 field list: `a` a required int, `b` an optional
string with default `"x"`. -/
def sc4fields : List (String × FieldInfo × CoreSchema) :=
  [("a", {}, .intS none none none none none none),
   ("b", {}, .withDefault (.strS none none none none) true (.str "x") none)]

/-- The `required` entry of a generation result, when it is an object. -/
def reqOf (r : Except PyErr JVal) : Option JVal :=
  match r with
  | .ok (.obj es) => alookup es "required"
  | _ => none

/-- The `discriminator.propertyName` entry of a generation result. -/
def discrPropertyName (r : Except PyErr JVal) : Option JVal :=
  match r with
  | .ok (.obj es) =>
    match alookup es "discriminator" with
    | some (.obj des) => alookup des "propertyName"
    | _ => none
  | _ => none

/-- The tag keys of the `discriminator.mapping` entry of a result. -/
def discrMappingKeys (r : Except PyErr JVal) : Option (List String) :=
  match r with
  | .ok (.obj es) =>
    match alookup es "discriminator" with
    | some (.obj des) =>
      match alookup des "mapping" with
      | some (.obj ms) => some (akeys ms)
      | _ => none
    | _ => none
  | _ => none

/-- Whether the result object carries the given key at top level. -/
def hasTopKey (r : Except PyErr JVal) (k : String) : Bool :=
  match r with
  | .ok (.obj es) => ahas es k
  | _ => false

/-- Scenario-5 branches: two model-fields nodes both declaring a property
`t`; the first also declares `x`. -/
def branch1 : CoreSchema := .modelFieldsS
  [("t", {}, .strS none none none none),
   ("x", {}, .intS none none none none none none)] none

def branch2 : CoreSchema := .modelFieldsS
  [("t", {}, .strS none none none none)] none

/-- Python values with heap identity, for reasoning about aliasing: each
mutable node (list / dict) carries the id of the heap cell holding it. -/
inductive HVal where
  | null
  | bool (b : Bool)
  | int (n : Int)
  | str (s : String)
  | arr (id : Nat) (items : List HVal)
  | obj (id : Nat) (entries : List (String × HVal))
deriving Repr

/-- `dict.copy()` (line 406): a new top-level dict cell whose entries hold
the very same sub-values (a shallow copy); non-dicts are returned as-is. -/
def dictCopy (newId : Nat) : HVal → HVal
  | .obj _ es => .obj newId es
  | v => v

mutual
/-- The heap ids of every mutable node reachable inside a value. -/
def mutIds : HVal → List Nat
  | .arr i items => i :: mutIdsArr items
  | .obj i es => i :: mutIdsObj es
  | _ => []

def mutIdsArr : List HVal → List Nat
  | [] => []
  | v :: rest => mutIds v ++ mutIdsArr rest
termination_by structural l => l

def mutIdsObj : List (String × HVal) → List Nat
  | [] => []
  | (_, v) :: rest => mutIds v ++ mutIdsObj rest
termination_by structural l => l
end

/-- Whether two values share any mutable heap cell (so that mutating one
through the shared cell is visible in the other). -/
def sharesMutable (a b : HVal) : Bool :=
  (mutIds a).any (fun i => (mutIds b).contains i)

mutual
/-- Erase heap identities, leaving the JSON value. -/
def eraseIds : HVal → JVal
  | .null => .null
  | .bool b => .bool b
  | .int n => .int n
  | .str s => .str s
  | .arr _ items => .arr (eraseIdsArr items)
  | .obj _ es => .obj (eraseIdsObj es)

def eraseIdsArr : List HVal → List JVal
  | [] => []
  | v :: rest => eraseIds v :: eraseIdsArr rest
termination_by structural l => l

def eraseIdsObj : List (String × HVal) → List (String × JVal)
  | [] => []
  | (k, v) :: rest => (k, eraseIds v) :: eraseIdsObj rest
termination_by structural l => l
end

/-- Whether every entry of the JsonRef-to-DefsRef registry table is the
template image of its DefsRef (which is how `populate_defs` builds it). -/
def tableAligned (tmpl : String) (table : List (String × String)) : Bool :=
  table.all (fun e => e.1 == format_ref tmpl e.2)

mutual
/-- No `$defs` key occurs anywhere inside the value (true of every
fragment the handlers emit: only the final assembly writes `$defs`). -/
def defsFree : JVal → Bool
  | .obj es => defsFreeObj es
  | .arr items => defsFreeArr items
  | _ => true
termination_by structural v => v

def defsFreeArr : List JVal → Bool
  | [] => true
  | v :: rest => defsFree v && defsFreeArr rest
termination_by structural l => l

def defsFreeObj : List (String × JVal) → Bool
  | [] => true
  | (k, v) :: rest => decide (k ≠ "$defs") && defsFree v && defsFreeObj rest
termination_by structural l => l
end

/-- The `$defs` table of a final document (empty when absent). -/
def docDefsOf (doc : JVal) : JObj :=
  match doc with
  | .obj es =>
    match alookup es "$defs" with
    | some (.obj ds) => ds
    | _ => []
  | _ => []

/-- The document root: the document with its `$defs` entry removed. -/
def docRootOf (doc : JVal) : JVal :=
  match doc with
  | .obj es => .obj (adel es "$defs")
  | v => v

/-- A `$defs` key reachable from the document root through a chain of
`$ref` occurrences (each ref being the template image of the next key). -/
inductive ReachableDef (tmpl : String) (root : JVal) (defs : JObj) : String → Prop where
  | base (k : String) : format_ref tmpl k ∈ refsOf root →
      ReachableDef tmpl root defs k
  | step (k k' : String) (v : JVal) : ReachableDef tmpl root defs k →
      (k, v) ∈ defs → format_ref tmpl k' ∈ refsOf v →
      ReachableDef tmpl root defs k'

/-- A DefsRef reachable by the garbage-collection worklist: resolved from
a worklist ref, or from a ref inside an already-reached definition. -/
inductive ReachFrom (table : List (String × String)) (defs : JObj)
    (work : List String) : String → Prop where
  | base (r d : String) : r ∈ work → alookup table r = some d →
      ReachFrom table defs work d
  | step (d d' r : String) (v : JVal) : ReachFrom table defs work d →
      alookup defs d = some v → r ∈ refsOf v → alookup table r = some d' →
      ReachFrom table defs work d'

/-- The refs contributed by one object entry (the per-entry case of
`refsOfObj`). -/
def refsOfEntry (k : String) (v : JVal) : List String :=
  if k = "$ref" then
    match v with
    | .str s => [s]
    | v' => refsOf v'
  else refsOf v

/-- The remapped value of one object entry (the per-entry case of
`remapEntries`). -/
def remapEntryVal (m : Remapping) (k : String) (v : JVal) : JVal :=
  if k = "$ref" then
    match v with
    | .str s => .str (m.remap_json_ref s)
    | v' => remap_json_schema m v'
  else if k = "$defs" then
    match v with
    | .obj defs => .obj (collapseEntries (remapDefs m defs))
    | v' => remap_json_schema m v'
  else remap_json_schema m v

/-- A definitions-table value as the generator stores them: a dict with no
nested `$defs` key. -/
def isObjDefsFree (v : JVal) : Bool :=
  match v with
  | .obj es => defsFreeObj es
  | _ => false

/-- A self-referential model: a `definitions` schema declaring `A`, whose
field `x` refers back to `A`, generated for `A` itself. -/
def c8schema : CoreSchema :=
  .definitionsS [.modelFieldsS [("x", {}, .definitionRefS "A")] (some "A")]
    (.definitionRefS "A")

/-- The generator state after `generate_inner` on `c8schema` (also the
post-garbage-collection state: the single definition survives). -/
def c8state : GenState :=
  { core_to_json_refs := [(("A", .validation), "#/$defs/A-Input__1")],
    core_to_defs_refs := [(("A", .validation), "A-Input__1")],
    defs_to_core_refs := [("A-Input__1", ("A", .validation))],
    json_to_defs_refs := [("#/$defs/A-Input__1", "A-Input__1")],
    definitions := [("A-Input__1", .obj
      [("type", .str "object"),
       ("properties", .obj [("x", .obj [("$ref", .str "#/$defs/A-Input__1")])]),
       ("required", .arr [.str "x"])])],
    prioritized_defsref_choices :=
      [("A-Input__1", ["A", "A-Input", "A", "A-Input", "A__1", "A-Input__1"])],
    collision_counter := [("A", 1)],
    collision_index := [("A", 1)],
    core_defs_invalid := [],
    mode := .validation,
    used := false,
    warnEvents := [] }

/-- The final document `generate` returns for `c8schema`. -/
def c8doc : JVal := .obj
  [("$defs", .obj [("A", .obj
      [("properties", .obj [("x", .obj [("$ref", .str "#/$defs/A")])]),
       ("required", .arr [.str "x"]),
       ("type", .str "object")])]),
   ("allOf", .arr [.obj [("$ref", .str "#/$defs/A")]])]

/- ### Run-decomposition lemmas for the generator monad -/

instance {ε α : Type} [DecidableEq ε] [DecidableEq α] : DecidableEq (Except ε α)
  | .ok a, .ok b =>
    if h : a = b then isTrue (by rw [h]) else isFalse (by intro hh; cases hh; exact h rfl)
  | .error a, .error b =>
    if h : a = b then isTrue (by rw [h]) else isFalse (by intro hh; cases hh; exact h rfl)
  | .ok _, .error _ => isFalse (by intro hh; cases hh)
  | .error _, .ok _ => isFalse (by intro hh; cases hh)

theorem runGen_bind {α β : Type} (m : GenM α) (f : α → GenM β) (st : GenState) :
    runGen (m >>= f) st =
      match runGen m st with
      | (.ok a, st') => runGen (f a) st'
      | (.error e, st') => (.error e, st') := by
  show runGen (ExceptT.bind m f) st = _
  rcases hm : runGen m st with ⟨r, st'⟩
  cases r <;>
    simp [runGen, ExceptT.bind, ExceptT.mk, ExceptT.bindCont, ExceptT.run,
      Bind.bind, StateT.bind, Pure.pure, StateT.pure] at hm ⊢ <;>
    simp [hm, Pure.pure, StateT.pure]

theorem runGen_tryCatch {α : Type} (m : GenM α) (h : PyErr → GenM α) (st : GenState) :
    runGen (tryCatch m h) st =
      match runGen m st with
      | (.ok a, st') => (.ok a, st')
      | (.error e, st') => runGen (h e) st' := by
  show runGen (ExceptT.tryCatch m h) st = _
  rcases hm : runGen m st with ⟨r, st'⟩
  cases r <;>
    simp [runGen, ExceptT.tryCatch, ExceptT.mk, ExceptT.run, Bind.bind, StateT.bind,
      Pure.pure, StateT.pure] at hm ⊢ <;>
    simp [hm, Pure.pure, StateT.pure]

theorem runGen_pure {α : Type} (a : α) (st : GenState) :
    runGen (pure a) st = (.ok a, st) := rfl

theorem runGen_throw {α : Type} (e : PyErr) (st : GenState) :
    runGen (throw e : GenM α) st = (.error e, st) := rfl

theorem runGen_get (st : GenState) : runGen get st = (.ok st, st) := rfl

theorem runGen_modify (f : GenState → GenState) (st : GenState) :
    runGen (modify f) st = (.ok ⟨⟩, f st) := rfl

/- ### Association-list lemmas -/

theorem alookup_aset_self {κ α : Type} [DecidableEq κ] (l : List (κ × α)) (k : κ) (v : α) :
    alookup (aset l k v) k = some v := by
  induction l with
  | nil => simp [aset, alookup]
  | cons e rest ih =>
    by_cases h : e.1 = k
    · simp [aset, h, alookup]
    · rcases e with ⟨k', v'⟩
      simp only at h
      simp [aset, h, alookup, ih]

theorem alookup_aset_ne {κ α : Type} [DecidableEq κ] (l : List (κ × α)) (k k' : κ) (v : α)
    (h : k' ≠ k) : alookup (aset l k v) k' = alookup l k' := by
  induction l with
  | nil =>
    simp only [aset, alookup]
    rw [if_neg (Ne.symm h)]
  | cons e rest ih =>
    rcases e with ⟨k₀, v₀⟩
    by_cases h₀ : k₀ = k
    · subst h₀
      simp only [aset, if_pos rfl, alookup]
      rw [if_neg (Ne.symm h), if_neg (Ne.symm h)]
    · simp only [aset, if_neg h₀, alookup, ih]

/- ### Claim C1: single-use generator instances -/

theorem generate_rejects_used (cfg : GenConfig) (s : CoreSchema) (m : Mode)
    (st : GenState) (h : st.used = true) :
    runGen (generate cfg s m) st = (.error alreadyUsedError, { st with mode := m }) := by
  simp only [generate, runGen_bind, runGen_modify, runGen_get]
  simp [h, runGen_throw]

theorem generate_definitions_rejects_used (cfg : GenConfig)
    (inputs : List (String × Mode × CoreSchema)) (st : GenState) (h : st.used = true) :
    runGen (generate_definitions cfg inputs) st = (.error alreadyUsedError, st) := by
  simp only [generate_definitions, runGen_bind, runGen_get]
  simp [h, runGen_throw]

theorem runGen_map {α β : Type} (f : α → β) (m : GenM α) (st : GenState) :
    runGen (f <$> m) st =
      match runGen m st with
      | (.ok a, st') => (.ok (f a), st')
      | (.error e, st') => (.error e, st') := by
  show runGen (ExceptT.map f m) st = _
  rcases hm : runGen m st with ⟨r, st'⟩
  cases r <;>
    simp [runGen, ExceptT.map, ExceptT.mk, ExceptT.run, Bind.bind, StateT.bind,
      Pure.pure, StateT.pure] at hm ⊢ <;>
    simp [hm, Pure.pure, StateT.pure]

theorem generate_ok_marks_used (cfg : GenConfig) (s : CoreSchema) (m : Mode)
    (st : GenState) (doc : JVal) (st' : GenState)
    (h : runGen (generate cfg s m) st = (.ok doc, st')) : st'.used = true := by
  simp only [generate, runGen_bind, runGen_map, runGen_modify, runGen_get, runGen_pure,
    runGen_throw] at h
  by_cases hu : st.used = true
  · simp [hu, runGen_throw] at h
  · simp only [hu, if_false, Bool.false_eq_true] at h
    repeat' (first
      | split at h
      | simp only [runGen_bind, runGen_map, runGen_modify, runGen_get, runGen_pure,
          runGen_throw] at h)
    all_goals (try (cases h))
    all_goals (try rfl)

theorem generate_definitions_ok_marks_used (cfg : GenConfig)
    (inputs : List (String × Mode × CoreSchema)) (st : GenState)
    (res : List ((String × Mode) × JVal) × JVal) (st' : GenState)
    (h : runGen (generate_definitions cfg inputs) st = (.ok res, st')) : st'.used = true := by
  simp only [generate_definitions, runGen_bind, runGen_map, runGen_modify, runGen_get,
    runGen_pure, runGen_throw] at h
  by_cases hu : st.used = true
  · simp [hu, runGen_throw] at h
  · simp only [hu, if_false, Bool.false_eq_true] at h
    repeat' (first
      | split at h
      | simp only [runGen_bind, runGen_map, runGen_modify, runGen_get, runGen_pure,
          runGen_throw] at h)
    all_goals (try (cases h))
    all_goals (try rfl)

/-- C1: a compiler instance is single-use.  A first successful `generate` or
`generate_definitions` call marks the instance used, and any second call to
either entry point on the resulting instance raises the explicit
`PydanticUserError` with code 'json-schema-already-used' instead of
producing a document (lines 349-354, 370; 386-392, 422). -/
theorem C1_single_use_instances :
    (∀ cfg s m st doc st', runGen (generate cfg s m) st = (.ok doc, st') →
      st'.used = true
      ∧ (∀ cfg₂ s₂ m₂, (runGen (generate cfg₂ s₂ m₂) st').1 = .error alreadyUsedError)
      ∧ (∀ cfg₂ inputs, (runGen (generate_definitions cfg₂ inputs) st').1 = .error alreadyUsedError))
    ∧ (∀ cfg inputs st res st', runGen (generate_definitions cfg inputs) st = (.ok res, st') →
      st'.used = true
      ∧ (∀ cfg₂ s₂ m₂, (runGen (generate cfg₂ s₂ m₂) st').1 = .error alreadyUsedError)
      ∧ (∀ cfg₂ inputs₂, (runGen (generate_definitions cfg₂ inputs₂) st').1 = .error alreadyUsedError)) := by
  constructor
  · intro cfg s m st doc st' h
    have hu := generate_ok_marks_used cfg s m st doc st' h
    refine ⟨hu, ?_, ?_⟩
    · intro cfg₂ s₂ m₂
      rw [generate_rejects_used cfg₂ s₂ m₂ st' hu]
    · intro cfg₂ inputs
      rw [generate_definitions_rejects_used cfg₂ inputs st' hu]
  · intro cfg inputs st res st' h
    have hu := generate_definitions_ok_marks_used cfg inputs st res st' h
    refine ⟨hu, ?_, ?_⟩
    · intro cfg₂ s₂ m₂
      rw [generate_rejects_used cfg₂ s₂ m₂ st' hu]
    · intro cfg₂ inputs₂
      rw [generate_definitions_rejects_used cfg₂ inputs₂ st' hu]

/-- Witness for C1 at a concrete input: a successful `generate` on a fresh
instance, whose resulting instance rejects both entry points. -/
theorem C1_single_use_instances_witness :
    runGen (generate {} (.boolS none) .validation) initState
        = (.ok (.obj [("type", .str "boolean")]),
           { initState with mode := .validation, used := true })
    ∧ ({ initState with mode := .validation, used := true } : GenState).used = true
    ∧ (runGen (generate {} (.boolS none) .validation)
        { initState with mode := .validation, used := true }).1 = .error alreadyUsedError := by
  have hrun : runGen (generate {} (.boolS none) .validation) initState
      = (.ok (.obj [("type", .str "boolean")]),
         { initState with mode := .validation, used := true }) := by
    simp only [generate, generate_inner, runGen]
    rfl
  refine ⟨hrun, ?_, ?_⟩
  · rfl
  · exact (C1_single_use_instances.1 {} (.boolS none) .validation initState
      (.obj [("type", .str "boolean")])
      { initState with mode := .validation, used := true } hrun).2.1 {} (.boolS none) .validation

/- ### Claim C2: registry caching and cycle termination -/

theorem get_defs_ref_preserves_tables (coreRef : String) (mode : Mode) (st : GenState) :
    ∃ r st', runGen (get_defs_ref coreRef mode) st = (.ok r, st')
      ∧ st'.core_to_defs_refs = st.core_to_defs_refs
      ∧ st'.core_to_json_refs = st.core_to_json_refs
      ∧ st'.defs_to_core_refs = st.defs_to_core_refs
      ∧ st'.json_to_defs_refs = st.json_to_defs_refs
      ∧ st'.definitions = st.definitions
      ∧ st'.mode = st.mode := by
  simp only [get_defs_ref, runGen_bind, runGen_get, runGen_modify, runGen_pure]
  split
  · exact ⟨_, _, rfl, rfl, rfl, rfl, rfl, rfl, rfl⟩
  · exact ⟨_, _, rfl, rfl, rfl, rfl, rfl, rfl, rfl⟩

set_option maxRecDepth 4000 in
/-- C2: `get_cache_defs_ref_schema` is the cycle-termination primitive.
The first call for a `(core_ref, mode)` pair records the three-way
CoreRef↔DefsRef↔JsonRef mapping and returns a bare `$ref` fragment (lines
1965-1975); every later call with the same pair returns the same DefsRef
with the identical bare fragment and leaves the whole generator state
untouched (lines 1960-1963); `generate_inner`'s matching short-circuit
(lines 437-441) likewise answers from the registry without descending into
the node; and on a self-referential IR graph, `generate` terminates with
exactly one definition for the cyclic node, carrying an internal `$ref` to
itself (the closed evaluation in the last conjunct). -/
theorem C2_registry_caching :
    (∀ cfg coreRef (st : GenState),
      alookup st.core_to_defs_refs (coreRef, st.mode) = none →
      ∃ defsRef st',
        runGen (get_cache_defs_ref_schema cfg coreRef) st =
          (.ok (defsRef, .obj [("$ref", .str (format_ref cfg.ref_template defsRef))]), st')
        ∧ alookup st'.core_to_defs_refs (coreRef, st.mode) = some defsRef
        ∧ alookup st'.core_to_json_refs (coreRef, st.mode)
            = some (format_ref cfg.ref_template defsRef)
        ∧ alookup st'.defs_to_core_refs defsRef = some (coreRef, st.mode)
        ∧ alookup st'.json_to_defs_refs (format_ref cfg.ref_template defsRef) = some defsRef)
    ∧ (∀ cfg coreRef (st : GenState) defsRef jsonRef,
        alookup st.core_to_defs_refs (coreRef, st.mode) = some defsRef →
        alookup st.core_to_json_refs (coreRef, st.mode) = some jsonRef →
        runGen (get_cache_defs_ref_schema cfg coreRef) st =
          (.ok (defsRef, .obj [("$ref", .str jsonRef)]), st))
    ∧ (∀ cfg (schema : CoreSchema) (st : GenState) coreRef d jr,
        schema.getRef = some coreRef →
        alookup st.core_to_defs_refs (coreRef, st.mode) = some d →
        ahas st.definitions d = true →
        alookup st.core_to_json_refs (coreRef, st.mode) = some jr →
        runGen (generate_inner cfg schema) st = (.ok (.obj [("$ref", .str jr)]), st))
    ∧ (runGen (generate {}
          (.definitionsS [.modelFieldsS [("x", {}, .definitionRefS "A")] (some "A")]
            (.definitionRefS "A")) .validation) initState).1
        = .ok (.obj
            [("$defs", .obj
              [("A", .obj
                [("properties", .obj [("x", .obj [("$ref", .str "#/$defs/A")])]),
                 ("required", .arr [.str "x"]),
                 ("type", .str "object")])]),
             ("allOf", .arr [.obj [("$ref", .str "#/$defs/A")]])]) := by
  refine ⟨?_, ?_, ?_, ?_⟩
  · intro cfg coreRef st hnone
    simp only [get_cache_defs_ref_schema, runGen_bind, runGen_get]
    rw [hnone]
    obtain ⟨r, stg, hrun, h1, h2, h3, h4, h5, h6⟩ :=
      get_defs_ref_preserves_tables coreRef st.mode st
    simp only [runGen_bind] at hrun ⊢
    rw [hrun]
    simp only [runGen_modify, runGen_bind, runGen_pure]
    refine ⟨r, _, rfl, ?_, ?_, ?_, ?_⟩
    · simp only [h1]
      exact alookup_aset_self _ _ _
    · exact alookup_aset_self _ _ _
    · simp only [h3]
      exact alookup_aset_self _ _ _
    · exact alookup_aset_self _ _ _
  · intro cfg coreRef st defsRef jsonRef h1 h2
    simp only [get_cache_defs_ref_schema, runGen_bind, runGen_get]
    rw [h1, h2]
    rfl
  · intro cfg schema st coreRef d jr href h1 h2 h3
    rw [generate_inner.eq_def]
    simp only [runGen_bind, runGen_get, href, h1, h2, h3]
    rfl
  · simp only [generate, generate_inner, gen_definitions_list, gen_fields, runGen]
    rfl

/-- Witness for C2 at concrete inputs: a fresh miss, then a hit on the
recorded state. -/
theorem C2_registry_caching_witness :
    (∃ defsRef st',
      runGen (get_cache_defs_ref_schema {} "A") initState =
        (.ok (defsRef, .obj [("$ref", .str (format_ref DEFAULT_REF_TEMPLATE defsRef))]), st')
      ∧ alookup st'.core_to_defs_refs ("A", Mode.validation) = some defsRef)
    ∧ runGen (get_cache_defs_ref_schema {}
        "A") { initState with
                core_to_defs_refs := [(("A", .validation), "A-Input__1")],
                core_to_json_refs := [(("A", .validation), "#/$defs/A-Input__1")] } =
      (.ok ("A-Input__1", .obj [("$ref", .str "#/$defs/A-Input__1")]),
       { initState with
          core_to_defs_refs := [(("A", .validation), "A-Input__1")],
          core_to_json_refs := [(("A", .validation), "#/$defs/A-Input__1")] }) := by
  constructor
  · obtain ⟨defsRef, st', hrun, hc1, hc2, hc3, hc4⟩ :=
      C2_registry_caching.1 {} "A" initState (by rfl)
    exact ⟨defsRef, st', hrun, hc1⟩
  · exact C2_registry_caching.2.1 {} "A" _ "A-Input__1" "#/$defs/A-Input__1" (by rfl) (by rfl)

/- ### Claim C5: branch-recoverable union errors and the warning hook -/

theorem generate_inner_callable_raises (cfg : GenConfig) (st : GenState) :
    runGen (generate_inner cfg (.callableS none)) st =
      (.error (.invalidForJsonSchema "Cannot generate a JsonSchema for core_schema.CallableSchema"), st) := by
  rw [generate_inner.eq_def]
  simp only [runGen_bind, runGen_get]
  rfl

/-- C5: a union choice whose generation raises the representability error
`PydanticInvalidForJsonSchema` is dropped while the remaining choices are
still generated (the loop at lines 1102-1110 resumes on the rest), the drop
is reported as a 'skipped-choice' event through the single `emit_warning`
hook, `render_warning_message` suppresses exactly the kinds in the
instance's configurable ignore-set (lines 2145-2171; the class default
ignores 'skipped-choice'), and the same error raised outside a union-branch
boundary propagates and aborts the whole `generate` call. -/
theorem C5_union_branch_errors :
    (∀ cfg c lbl rest (st : GenState) msg st₁,
      runGen (generate_inner cfg c) st = (.error (.invalidForJsonSchema msg), st₁) →
      runGen (gen_union_choices cfg ((c, lbl) :: rest)) st =
        runGen (gen_union_choices cfg rest)
          { st₁ with warnEvents := st₁.warnEvents ++ [(.skippedChoice, msg)] })
    ∧ runGen (generate_inner {} (.unionS [(.callableS none, none), (.boolS none, none)] none))
          initState
        = (.ok (.obj [("type", .str "boolean")]),
           { initState with
              warnEvents :=
                [(.skippedChoice, "Cannot generate a JsonSchema for core_schema.CallableSchema")] })
    ∧ (∀ detail, render_warning_message defaultIgnoredWarningKinds .skippedChoice detail = none)
    ∧ (∀ ignored kind detail, kind ∉ ignored →
        render_warning_message ignored kind detail = some (detail ++ " [" ++ kind.tag ++ "]"))
    ∧ (∀ cfg m (st : GenState), st.used = false →
        (runGen (generate cfg (.callableS none) m) st).1
          = .error (.invalidForJsonSchema "Cannot generate a JsonSchema for core_schema.CallableSchema")) := by
  refine ⟨?_, ?_, ?_, ?_, ?_⟩
  · intro cfg c lbl rest st msg st₁ h
    simp only [gen_union_choices, runGen_bind, runGen_tryCatch, h, runGen_pure]
    simp only [runGen_bind, runGen_modify, runGen_pure, emit_warning]
    rcases hr : runGen (gen_union_choices cfg rest)
        { st₁ with warnEvents := st₁.warnEvents ++ [(.skippedChoice, msg)] } with ⟨r, st₂⟩
    cases r <;> rfl
  · simp only [generate_inner, gen_union_choices, runGen]
    rfl
  · intro detail
    rfl
  · intro ignored kind detail h
    simp [render_warning_message, h]
  · intro cfg m st hu
    simp only [generate, runGen_bind, runGen_modify, runGen_get]
    simp only [hu, Bool.false_eq_true, if_false]
    simp only [runGen_bind, generate_inner_callable_raises, runGen_pure]

/-- Witness for C5 at concrete inputs: a callable choice inside a union is
dropped with a recorded skipped-choice event, and a bare callable aborts
`generate`. -/
theorem C5_union_branch_errors_witness :
    runGen (gen_union_choices {} [((.callableS none : CoreSchema), (none : Option String))])
        initState
      = runGen (gen_union_choices {} [])
          { initState with
             warnEvents :=
               [(.skippedChoice, "Cannot generate a JsonSchema for core_schema.CallableSchema")] }
    ∧ .skippedChoice ∉ ([] : List WarningKind)
    ∧ render_warning_message [] .skippedChoice "d" = some ("d" ++ " [" ++ "skipped-choice" ++ "]")
    ∧ (initState.used = false)
    ∧ (runGen (generate {} (.callableS none) .validation) initState).1
        = .error (.invalidForJsonSchema "Cannot generate a JsonSchema for core_schema.CallableSchema") := by
  refine ⟨?_, ?_, ?_, rfl, ?_⟩
  · exact C5_union_branch_errors.1 {} (.callableS none) none [] initState
      "Cannot generate a JsonSchema for core_schema.CallableSchema" initState
      (generate_inner_callable_raises {} initState)
  · simp
  · exact C5_union_branch_errors.2.2.2.1 [] .skippedChoice "d" (by simp)
  · exact C5_union_branch_errors.2.2.2.2 {} .validation initState rfl

/- ### Claim C6: per-mode `required` computation -/

/-- C6 counterexample: in validation mode a typed-dict field is required
iff its `required` flag (defaulting to the dict's totality) is set —
lines 1525-1526 consult `field.get('required', total)`, not the presence
of a default.  The field `c` below carries a default value yet is marked
required, both by `field_is_required` directly and in the node-level
`required` list. -/
theorem C6_validation_default_counterexample :
    carries_default
        (.withDefault (.intS none none none none none none) true (.int 0) none) = true
    ∧ field_is_required {} .validation
        { kind := .typedDictField, required_flag := some true }
        (.withDefault (.intS none none none none none none) true (.int 0) none) true = true
    ∧ reqOf (runGen (generate_inner {}
        (.typedDictS
          [("c", { kind := .typedDictField, required_flag := some true },
            .withDefault (.intS none none none none none none) true (.int 0) none)]
          (some true) none)) initState).1
      = some (.arr [.str "c"]) := by
  refine ⟨rfl, rfl, ?_⟩
  simp only [generate_inner, gen_fields, runGen, reqOf]
  rfl

/-- C6 (amended): `required` is computed per mode by `field_is_required`
(lines 1507-1529): in serialization mode with the
`json_schema_serialization_defaults_required` flag set, a field is
required iff it is not serialization-excluded, regardless of defaults;
otherwise a model/dataclass field is required iff it carries no default,
while a typed-dict field is required iff its `required` flag (defaulting
to the dict's totality) is set.  Scenario 4 (a model-fields node with
`[a: required int, b: optional string default "x"]`) yields
`required=["a"]` in validation mode and `required=["a","b"]` in
serialization mode with the flag set. -/
theorem C6_required_per_mode :
    (∀ (cfg : GenConfig) (f : FieldInfo) (s : CoreSchema) (total : Bool),
      cfg.json_schema_serialization_defaults_required = true →
      field_is_required cfg .serialization f s total
        = ! (f.serialization_exclude.getD false))
    ∧ (∀ (cfg : GenConfig) (f : FieldInfo) (s : CoreSchema) (total : Bool),
        f.kind ≠ .typedDictField →
        field_is_required cfg .validation f s total = ! carries_default s)
    ∧ (∀ (cfg : GenConfig) (f : FieldInfo) (s : CoreSchema) (total : Bool),
        f.kind = .typedDictField →
        field_is_required cfg .validation f s total = f.required_flag.getD total)
    ∧ reqOf (runGen (generate_inner {} (.modelFieldsS sc4fields none)) initState).1
        = some (.arr [.str "a"])
    ∧ reqOf (runGen
          (generate_inner { json_schema_serialization_defaults_required := true }
            (.modelFieldsS sc4fields none))
          { initState with mode := .serialization }).1
        = some (.arr [.str "a", .str "b"]) := by
  refine ⟨?_, ?_, ?_, ?_, ?_⟩
  · intro cfg f s total h
    simp only [field_is_required, h, and_true, if_true]
    cases f.serialization_exclude.getD false <;> rfl
  · intro cfg f s total h
    simp only [field_is_required]
    rw [if_neg (by simp)]
    cases hk : f.kind with
    | typedDictField => exact absurd hk h
    | modelField => cases s <;> rfl
    | dataclassField => cases s <;> rfl
  · intro cfg f s total h
    simp only [field_is_required, h]
    rw [if_neg (by simp)]
  · simp only [generate_inner, gen_fields, runGen, reqOf, sc4fields]
    rfl
  · simp only [generate_inner, gen_fields, runGen, reqOf, sc4fields]
    rfl

/-- Witness for C6 at concrete inputs: the flag-set serialization rule on
an excluded field, the no-default rule on a model field, and the
typed-dict flag rule. -/
theorem C6_required_per_mode_witness :
    field_is_required { json_schema_serialization_defaults_required := true }
        .serialization { serialization_exclude := some true }
        (.boolS none) true = false
    ∧ field_is_required {} .validation {}
        (.withDefault (.boolS none) true (.bool true) none) true = false
    ∧ field_is_required {} .validation { kind := .typedDictField }
        (.boolS none) false = false := by
  refine ⟨?_, ?_, ?_⟩
  · have h := C6_required_per_mode.1
      { json_schema_serialization_defaults_required := true }
      { serialization_exclude := some true } (.boolS none) true rfl
    simpa using h
  · have h := C6_required_per_mode.2.1 {} {}
      (.withDefault (.boolS none) true (.bool true) none) true (by decide)
    simpa [carries_default] using h
  · have h := C6_required_per_mode.2.2.1 {} { kind := .typedDictField }
      (.boolS none) false rfl
    simpa using h

/- ### Claim C7: discriminator inference on tagged unions -/

/-- C7: discriminator inference considers alias-path candidates in order
(lines 1168-1187): a non-list element aborts the scan, a path qualifies
only when it is a single-element string path whose name is a declared
property on every ref-resolved oneOf branch, the first qualifying
candidate wins, a failing single-string candidate is skipped in favour of
later ones, and the result is emitted as `discriminator.propertyName`
with a tag-to-branch `mapping` (lines 1141-1147) — or the `discriminator`
key is omitted entirely when no candidate qualifies. -/
theorem C7_discriminator_inference :
    (∀ (cs : List JVal) (s : String) (rest : List DiscrElem) (st : GenState),
      runGen (scanAliasPaths cs (.strElem s :: rest)) st = (.ok none, st))
    ∧ (∀ (cs : List JVal) (items : List AliasItem) (rest : List DiscrElem) (st : GenState),
        (∀ a, items ≠ [.str a]) →
        runGen (scanAliasPaths cs (.path items :: rest)) st
          = runGen (scanAliasPaths cs rest) st)
    ∧ (∀ (cs : List JVal) (a : String) (rest : List DiscrElem) (st st' : GenState),
        runGen (aliasPresentOnAll a cs) st = (.ok true, st') →
        runGen (scanAliasPaths cs (.path [.str a] :: rest)) st = (.ok (some a), st'))
    ∧ (∀ (cs : List JVal) (a : String) (rest : List DiscrElem) (st st' : GenState),
        runGen (aliasPresentOnAll a cs) st = (.ok false, st') →
        runGen (scanAliasPaths cs (.path [.str a] :: rest)) st
          = runGen (scanAliasPaths cs rest) st')
    ∧ (let res := (runGen (generate_inner {} (.taggedUnionS [("a", branch1), ("b", branch2)]
          (.list [.path [.str "q"], .path [.str "t"]]) none)) initState).1
       discrPropertyName res = some (.str "t")
       ∧ discrMappingKeys res = some ["a", "b"]
       ∧ hasTopKey res "oneOf" = true)
    ∧ (let res := (runGen (generate_inner {} (.taggedUnionS [("a", branch1), ("b", branch2)]
          (.list [.path [.str "q"]]) none)) initState).1
       hasTopKey res "discriminator" = false ∧ hasTopKey res "oneOf" = true) := by
  refine ⟨?_, ?_, ?_, ?_, ?_, ?_⟩
  · intro cs s rest st
    rfl
  · intro cs items rest st h
    cases items with
    | nil => rfl
    | cons x xs =>
      cases x with
      | int n => rfl
      | str a =>
        cases xs with
        | nil => exact absurd rfl (h a)
        | cons y ys => rfl
  · intro cs a rest st st' h
    simp only [scanAliasPaths, runGen_bind, h, if_true, runGen_pure]
  · intro cs a rest st st' h
    simp only [scanAliasPaths, runGen_bind, h]
    rw [if_neg (by simp)]
  · simp only [generate_inner, gen_tagged_choices, gen_fields, gen_union_choices,
      gen_definitions_list, runGen]
    refine ⟨rfl, rfl, rfl⟩
  · simp only [generate_inner, gen_tagged_choices, gen_fields, gen_union_choices,
      gen_definitions_list, runGen]
    refine ⟨rfl, rfl⟩

/-- Witness for C7 at concrete inputs: the skip rule on an empty path, the
first-hit rule on a branch list declaring `t`, and the miss rule on a
branch list that does not. -/
theorem C7_discriminator_inference_witness :
    (∀ a, ([] : List AliasItem) ≠ [.str a])
    ∧ runGen (scanAliasPaths [.obj [("properties", .obj [("t", .null)])]]
        [.path []]) initState
        = runGen (scanAliasPaths [.obj [("properties", .obj [("t", .null)])]] []) initState
    ∧ runGen (aliasPresentOnAll "t" [.obj [("properties", .obj [("t", .null)])]]) initState
        = (.ok true, initState)
    ∧ runGen (scanAliasPaths [.obj [("properties", .obj [("t", .null)])]]
        [.path [.str "t"]]) initState = (.ok (some "t"), initState)
    ∧ runGen (aliasPresentOnAll "q" [.obj [("properties", .obj [("t", .null)])]]) initState
        = (.ok false, initState)
    ∧ runGen (scanAliasPaths [.obj [("properties", .obj [("t", .null)])]]
        [.path [.str "q"], .strElem "z"]) initState
        = runGen (scanAliasPaths [.obj [("properties", .obj [("t", .null)])]]
            [.strElem "z"]) initState := by
  refine ⟨fun a => by simp, ?_, rfl, ?_, rfl, ?_⟩
  · exact C7_discriminator_inference.2.1 _ [] [] initState (fun a => by simp)
  · exact C7_discriminator_inference.2.2.1 _ "t" [] initState initState rfl
  · exact C7_discriminator_inference.2.2.2.1 _ "q" [.strElem "z"] initState initState rfl

/- ### Deduplication lemmas -/

theorem dictInsertPair_mem {acc : List (JVal × JVal)} {key v : JVal} {p : JVal × JVal}
    (h : p ∈ dictInsertPair acc key v) : p ∈ acc ∨ p = (key, v) := by
  induction acc with
  | nil =>
    simp only [dictInsertPair, List.mem_singleton] at h
    exact Or.inr h
  | cons q rest ih =>
    obtain ⟨k, v'⟩ := q
    simp only [dictInsertPair] at h
    by_cases hb : JVal.beq k key = true
    · rw [if_pos hb] at h
      rcases List.mem_cons.1 h with h1 | h1
      · exact Or.inr h1
      · exact Or.inl (List.mem_cons_of_mem _ h1)
    · rw [if_neg hb] at h
      rcases List.mem_cons.1 h with h1 | h1
      · exact Or.inl (h1 ▸ List.mem_cons_self _ _)
      · rcases ih h1 with h2 | h2
        · exact Or.inl (List.mem_cons_of_mem _ h2)
        · exact Or.inr h2

theorem dictInsertPair_pairwise {acc : List (JVal × JVal)} {key v : JVal}
    (h : acc.Pairwise (fun p q => JVal.beq p.1 q.1 = false)) :
    (dictInsertPair acc key v).Pairwise (fun p q => JVal.beq p.1 q.1 = false) := by
  induction acc with
  | nil => simp [dictInsertPair]
  | cons q rest ih =>
    obtain ⟨k, v'⟩ := q
    rw [List.pairwise_cons] at h
    obtain ⟨h1, h2⟩ := h
    simp only [dictInsertPair]
    by_cases hb : JVal.beq k key = true
    · rw [if_pos hb, List.pairwise_cons]
      refine ⟨?_, h2⟩
      intro q hq
      have hk : k = key := JVal.eq_of_beq _ _ hb
      exact hk ▸ h1 q hq
    · rw [if_neg hb, List.pairwise_cons]
      refine ⟨?_, ih h2⟩
      intro q hq
      rcases dictInsertPair_mem hq with h3 | h3
      · exact h1 q h3
      · rw [h3]
        exact Bool.eq_false_iff.2 hb

theorem dedupFold_mem {l : List JVal} :
    ∀ {acc : List (JVal × JVal)} {p : JVal × JVal},
    p ∈ l.foldl (fun acc s => dictInsertPair acc (canon s) s) acc →
    p ∈ acc ∨ ∃ s ∈ l, p = (canon s, s) := by
  induction l with
  | nil =>
    intro acc p h
    exact Or.inl h
  | cons s rest ih =>
    intro acc p h
    simp only [List.foldl_cons] at h
    rcases ih h with h1 | h1
    · rcases dictInsertPair_mem h1 with h2 | h2
      · exact Or.inl h2
      · exact Or.inr ⟨s, List.mem_cons_self _ _, h2⟩
    · obtain ⟨t, ht, hp⟩ := h1
      exact Or.inr ⟨t, List.mem_cons_of_mem _ ht, hp⟩

theorem dedupFold_pairwise {l : List JVal} :
    ∀ {acc : List (JVal × JVal)},
    acc.Pairwise (fun p q => JVal.beq p.1 q.1 = false) →
    (l.foldl (fun acc s => dictInsertPair acc (canon s) s) acc).Pairwise
      (fun p q => JVal.beq p.1 q.1 = false) := by
  induction l with
  | nil => intro acc h; exact h
  | cons s rest ih =>
    intro acc h
    simp only [List.foldl_cons]
    exact ih (dictInsertPair_pairwise h)

theorem deduplicate_schemas_sound (ms : List JVal) :
    (deduplicate_schemas ms).Pairwise (fun a b => pyEq a b = false)
    ∧ ∀ v ∈ deduplicate_schemas ms, v ∈ ms := by
  constructor
  · have hpw := @dedupFold_pairwise ms ([] : List (JVal × JVal)) (List.Pairwise.nil)
    have hmem := fun {p : JVal × JVal}
      (h : p ∈ ms.foldl (fun acc s => dictInsertPair acc (canon s) s) []) =>
      @dedupFold_mem ms _ _ h
    rw [deduplicate_schemas, List.pairwise_map]
    refine hpw.imp_of_mem ?_
    intro p q hp hq h
    rcases hmem hp with h1 | ⟨sp, _, hps⟩
    · exact absurd h1 (List.not_mem_nil p)
    rcases hmem hq with h2 | ⟨sq, _, hqs⟩
    · exact absurd h2 (List.not_mem_nil q)
    rw [hps] at h ⊢
    rw [hqs] at h ⊢
    simpa [pyEq] using h
  · intro v hv
    rw [deduplicate_schemas, List.mem_map] at hv
    obtain ⟨p, hp, hpv⟩ := hv
    rcases @dedupFold_mem ms _ _ hp with h1 | ⟨s, hs, hps⟩
    · exact absurd h1 (List.not_mem_nil p)
    · rw [← hpv, hps]
      exact hs

/- ### Claim C10: union result flattening -/

/-- C10: a union whose choice loop (after skipping omitted and
unrepresentable choices) produced exactly one fragment returns that
fragment bare (lines 1111-1112); with several fragments,
`get_flattened_anyof` (lines 2102-2112) splices members that are pure
single-key `anyOf` schemas inline, keeps other members whole, removes
structural duplicates (Python `==`, order-insensitive for dicts), and
returns a post-deduplication singleton bare — otherwise an `anyOf`
wrapper over the deduplicated members. -/
theorem C10_union_flattening :
    (∀ (cfg : GenConfig) (choices : List (CoreSchema × Option String))
        (st st' : GenState) (es : JObj),
      runGen (gen_union_choices cfg choices) st = (.ok [.obj es], st') →
      dhas es "$ref" = false →
      runGen (generate_inner cfg (.unionS choices none)) st = (.ok (.obj es), st'))
    ∧ (∀ (xs : List JVal) (rest : List JVal),
        flattenMembers (.obj [("anyOf", .arr xs)] :: rest) = xs ++ flattenMembers rest)
    ∧ (∀ (s : JVal) (rest : List JVal), (∀ xs, s ≠ .obj [("anyOf", .arr xs)]) →
        flattenMembers (s :: rest) = s :: flattenMembers rest)
    ∧ (∀ ms : List JVal,
        (deduplicate_schemas ms).Pairwise (fun a b => pyEq a b = false)
        ∧ ∀ v ∈ deduplicate_schemas ms, v ∈ ms)
    ∧ (∀ schemas : List JVal,
        get_flattened_anyof schemas
          = match deduplicate_schemas (flattenMembers schemas) with
            | [m] => m
            | ms => .obj [("anyOf", .arr ms)]) := by
  refine ⟨?_, ?_, ?_, deduplicate_schemas_sound, fun _ => rfl⟩
  · intro cfg choices st st' es h hr
    rw [generate_inner.eq_def]
    simp only [runGen_bind, runGen_get, CoreSchema.getRef, h]
    simp only [populate_defs, convert_to_all_of, objEntries, CoreSchema.getRef,
      runGen_bind, runGen_pure, hr, Bool.false_eq_true, false_and, if_false]
  · intro xs rest
    rfl
  · intro s rest h
    simp only [flattenMembers]
    rfl

/-- Witness for C10 at concrete inputs: a union of a boolean with an
unrepresentable callable returns the boolean fragment bare, and a
non-`anyOf` member is kept whole by the splice loop. -/
theorem C10_union_flattening_witness :
    runGen (generate_inner {}
        (.unionS [((.boolS none : CoreSchema), (none : Option String)),
                  (.callableS none, none)] none)) initState
      = (.ok (.obj [("type", .str "boolean")]),
         { initState with
            warnEvents :=
              [(.skippedChoice, "Cannot generate a JsonSchema for core_schema.CallableSchema")] })
    ∧ flattenMembers [.null, .obj [("anyOf", .arr [.bool true])]] = [.null, .bool true] := by
  constructor
  · exact C10_union_flattening.1 {} _ initState _ [("type", .str "boolean")]
      (by simp only [gen_union_choices, generate_inner, runGen]; rfl) rfl
  · have h := C10_union_flattening.2.2.1 .null [.obj [("anyOf", .arr [.bool true])]]
      (fun xs => by simp)
    rw [h]
    rfl

/- ### Claim C4: the remapping fixed-point cap and its error -/

/-- C4 counterexample: the line-191 failure is
`PydanticInvalidForJsonSchema('Failed to simplify the JSON schema
definitions')` — the *same* error class that representability failures
raise through `handle_invalid_for_json_schema` (lines 2142-2143), not a
distinct one: both produce the `invalidForJsonSchema` constructor, which
`except PydanticInvalidForJsonSchema` handlers (e.g. the union-choice
loop) treat uniformly. -/
theorem C4_error_class_counterexample :
    remapLoop [] [] [] 0 ⟨[], []⟩ [] = .error simplifyFailedError
    ∧ simplifyFailedError
        = .invalidForJsonSchema "Failed to simplify the JSON schema definitions"
    ∧ simplifyFailedError.isInvalidForJsonSchema = true
    ∧ (runGen (handle_invalid_for_json_schema "core_schema.CallableSchema") initState).1
        = .error (.invalidForJsonSchema
            "Cannot generate a JsonSchema for core_schema.CallableSchema")
    ∧ (PyErr.invalidForJsonSchema
        "Cannot generate a JsonSchema for core_schema.CallableSchema").isInvalidForJsonSchema
        = true := by
  exact ⟨rfl, rfl, rfl, rfl, rfl⟩

/-- C4 (amended): `from_prioritized_choices` runs its fixed-point loop for
at most 100 rounds (`for _iter in range(100)`, line 160); on exhaustion it
raises `PydanticInvalidForJsonSchema('Failed to simplify the JSON schema
definitions')` (line 191) — the same class as representability errors —
and `_build_definitions_remapping` (lines 2173-2182) propagates any such
error unswallowed. -/
theorem C4_remap_cap_and_error :
    (∀ (p : List (String × List String)) (d : List (String × String)) (defs : JObj),
      from_prioritized_choices p d defs = remapLoop p d (akeys defs) 100 ⟨[], []⟩ defs)
    ∧ (∀ (p : List (String × List String)) (d : List (String × String))
        (k : List String) (prev : Remapping) (vals : JObj),
        remapLoop p d k 0 prev vals = .error simplifyFailedError)
    ∧ simplifyFailedError
        = .invalidForJsonSchema "Failed to simplify the JSON schema definitions"
    ∧ (∀ (cfg : GenConfig) (st : GenState) (e : PyErr),
        from_prioritized_choices st.prioritized_defsref_choices
          (st.prioritized_defsref_choices.foldl
            (fun acc ent =>
              ent.2.foldl (fun acc dr => aset acc dr (format_ref cfg.ref_template dr)) acc)
            [])
          st.definitions = .error e →
        runGen (build_definitions_remapping cfg) st = (.error e, st)) := by
  refine ⟨fun _ _ _ => rfl, fun _ _ _ _ _ => rfl, rfl, ?_⟩
  intro cfg st e h
  simp only [build_definitions_remapping, runGen_bind, runGen_get, h, runGen_throw]

/-- Witness for C4 at a concrete input: a definitions table whose key has
no prioritized choices makes `from_prioritized_choices` fail, and
`_build_definitions_remapping` surfaces that exact error. -/
theorem C4_remap_cap_and_error_witness :
    from_prioritized_choices [] [] [("A", .obj [])] = .error (.keyError "A")
    ∧ runGen (build_definitions_remapping {})
        { initState with definitions := [("A", .obj [])] }
        = (.error (.keyError "A"), { initState with definitions := [("A", .obj [])] }) := by
  refine ⟨rfl, ?_⟩
  exact C4_remap_cap_and_error.2.2.2 {} { initState with definitions := [("A", .obj [])] }
    (.keyError "A") rfl

/- ### Claim C9: cross-instance determinism -/

/-- C9: generation is deterministic across instances.  In the embedding a
compiler instance is exactly a `GenState` value and `__init__`
(lines 255-289) always produces the same fresh state (`initState`) for
fixed constructor parameters (carried in `GenConfig`); `generate` reads
and writes only that per-instance state (there is no module-level mutable
state in `json_schema.py`, and the embedding is a pure function of
`(cfg, schema, mode, state)`).  Hence two separately constructed fresh
instances — any two states equal to `initState` — yield identical output
documents for a fixed IR graph and fixed parameters.  The force of the
theorem is that `initState`, not some wider per-instance input, is the
whole instance: nothing else can vary between fresh instances. -/
theorem C9_cross_instance_determinism (cfg : GenConfig) (schema : CoreSchema)
    (mode : Mode) (st₁ st₂ : GenState)
    (h₁ : st₁ = initState) (h₂ : st₂ = initState) :
    (runGen (generate cfg schema mode) st₁).1
      = (runGen (generate cfg schema mode) st₂).1 := by
  rw [h₁, h₂]

/-- Witness for C9 at a concrete input: two fresh instances produce the
same document for an int-constraint schema. -/
theorem C9_cross_instance_determinism_witness :
    (runGen (generate {} (.intS (some 3) none (some 0) none none none) .validation)
        initState).1
      = (runGen (generate {} (.intS (some 3) none (some 0) none none none) .validation)
          initState).1 :=
  C9_cross_instance_determinism {} (.intS (some 3) none (some 0) none none none)
    .validation initState initState rfl rfl

/- ### Claim C3: top-level `$ref` unpacking and the line-406 copy -/

/-- C3 counterexample: the inlining copy at line 406 is
`ref_json_schema.copy()` — a top-level-shallow `dict.copy()`, not a deep
copy.  For a definition with a nested dict, the copy is a fresh top-level
cell (id 3 below) whose nested dict is the *same* heap cell (id 2) as the
definition's, so the result does share mutable substructure with the
definitions table, contradicting the claim's deep-copy/no-sharing
parenthetical (only the value, with ids erased, is equal). -/
theorem C3_shallow_copy_counterexample :
    dictCopy 3 (.obj 1 [("properties", .obj 2 [("x", .null)])])
      = .obj 3 [("properties", .obj 2 [("x", .null)])]
    ∧ sharesMutable
        (dictCopy 3 (.obj 1 [("properties", .obj 2 [("x", .null)])]))
        (.obj 1 [("properties", .obj 2 [("x", .null)])]) = true
    ∧ eraseIds (dictCopy 3 (.obj 1 [("properties", .obj 2 [("x", .null)])]))
        = eraseIds (.obj 1 [("properties", .obj 2 [("x", .null)])])
    ∧ mutIds (dictCopy 3 (.obj 1 [("properties", .obj 2 [("x", .null)])])) = [3, 2]
    ∧ mutIds (.obj 1 [("properties", .obj 2 [("x", .null)])]) = [1, 2] := by
  exact ⟨rfl, rfl, rfl, rfl, rfl⟩

/-- C3 (amended): when the core loop yields a bare top-level `{'$ref': r}`
referenced exactly once with an existing definition, the top level is
replaced by a *shallow* (top-level) copy of that definition's content —
value-equal to it, sharing every nested mutable substructure with the
definitions table — and the ref count is decremented; otherwise it is
rewritten to `{'allOf': [{'$ref': r}]}` (lines 397-408).  The shallow copy
is witnessed in the heap model: `dictCopy` preserves the value and every
nested heap cell while allocating only a fresh top cell. -/
theorem C3_top_ref_unpacking :
    (∀ (fuel : Nat) (counts : List (String × Int)) (entries : JObj) (r : String)
        (st : GenState) (des : JObj),
      dget entries "$ref" = some (.str r) →
      runGen (get_schema_from_definitions r) st = (.ok (some (.obj des)), st) →
      (alookup counts r).getD 0 = 1 →
      dget des "$ref" = none →
      runGen (unpackRefLoop (fuel + 2) counts (.obj entries)) st
        = (.ok (.obj des, aset counts r 0), st))
    ∧ (∀ (fuel : Nat) (counts : List (String × Int)) (entries : JObj) (r : String)
        (st : GenState) (dopt : Option JVal),
        dget entries "$ref" = some (.str r) →
        runGen (get_schema_from_definitions r) st = (.ok dopt, st) →
        ((alookup counts r).getD 0 > 1 ∨ dopt = none) →
        runGen (unpackRefLoop (fuel + 2) counts (.obj entries)) st
          = (.ok (.obj [("allOf", .arr [.obj [("$ref", .str r)]])], counts), st))
    ∧ (∀ (newId i : Nat) (es : List (String × HVal)),
        dictCopy newId (.obj i es) = .obj newId es)
    ∧ (∀ (newId : Nat) (v : HVal), eraseIds (dictCopy newId v) = eraseIds v)
    ∧ (∀ (newId i : Nat) (es : List (String × HVal)),
        mutIdsObj es ≠ [] →
        sharesMutable (dictCopy newId (.obj i es)) (.obj i es) = true) := by
  refine ⟨?_, ?_, fun _ _ _ => rfl, ?_, ?_⟩
  · intro fuel counts entries r st des h1 h2 h3 h4
    simp only [unpackRefLoop, runGen_bind, objEntries, runGen_pure, h1, h2]
    rw [h3]
    rw [if_neg (by simp)]
    simp only [Option.getD_some, runGen_bind, objEntries, runGen_pure, h4]
    norm_num
  · intro fuel counts entries r st dopt h1 h2 h3
    simp only [unpackRefLoop, runGen_bind, objEntries, runGen_pure, h1, h2]
    rw [if_pos h3]
    simp only [unpackRefLoop, runGen_bind, objEntries, runGen_pure]
    rfl
  · intro newId v
    cases v <;> rfl
  · intro newId i es h
    match hm : mutIdsObj es with
    | [] => exact absurd hm h
    | j :: rest =>
      simp only [sharesMutable, dictCopy, mutIds, hm, List.any_cons, List.contains_cons,
        Bool.or_eq_true, beq_iff_eq, List.any_eq_true]
      exact Or.inr (Or.inl (Or.inr (Or.inl trivial)))

/-- Witness for C3 at concrete inputs: a once-referenced `$ref` is inlined
with its definition's content (count decremented), a twice-referenced one
is `allOf`-wrapped, and a shallow copy of a nested definition shares its
nested cell. -/
theorem C3_top_ref_unpacking_witness :
    (let st : GenState :=
      { initState with
          json_to_defs_refs := [("#/$defs/M", "M")],
          definitions := [("M", .obj [("type", .str "integer")])] }
     runGen (unpackRefLoop 2 [("#/$defs/M", 1)] (.obj [("$ref", .str "#/$defs/M")])) st
        = (.ok (.obj [("type", .str "integer")], [("#/$defs/M", 0)]), st)
     ∧ runGen (unpackRefLoop 2 [("#/$defs/M", 2)] (.obj [("$ref", .str "#/$defs/M")])) st
        = (.ok (.obj [("allOf", .arr [.obj [("$ref", .str "#/$defs/M")]])],
                [("#/$defs/M", 2)]), st))
    ∧ mutIdsObj [("x", HVal.obj 2 [])] ≠ []
    ∧ sharesMutable (dictCopy 3 (.obj 1 [("x", HVal.obj 2 [])]))
        (.obj 1 [("x", HVal.obj 2 [])]) = true := by
  refine ⟨⟨?_, ?_⟩, by simp [mutIdsObj, mutIds], ?_⟩
  · exact C3_top_ref_unpacking.1 0 [("#/$defs/M", 1)] [("$ref", .str "#/$defs/M")]
      "#/$defs/M" _ [("type", .str "integer")] rfl rfl rfl rfl
  · exact C3_top_ref_unpacking.2.1 0 [("#/$defs/M", 2)] [("$ref", .str "#/$defs/M")]
      "#/$defs/M" _ (some (.obj [("type", .str "integer")])) rfl rfl (Or.inl (by decide))
  · exact C3_top_ref_unpacking.2.2.2.2 3 1 [("x", HVal.obj 2 [])]
      (by simp [mutIdsObj, mutIds])

/- ### Order, lookup and permutation lemmas for sorted objects -/

theorem charListLe_refl (l : List Char) : charListLe l l = true := by
  induction l with
  | nil => rfl
  | cons c rest ih =>
    simp only [charListLe, lt_irrefl, if_false]
    exact ih

theorem strLe_refl (s : String) : strLe s s = true := charListLe_refl s.toList

theorem insertByKey_perm (e : String × JVal) (l : List (String × JVal)) :
    (insertByKey e l).Perm (e :: l) := by
  induction l with
  | nil => exact List.Perm.refl _
  | cons f rest ih =>
    simp only [insertByKey]
    by_cases hb : strLe e.1 f.1 = true
    · rw [if_pos hb]
    · rw [if_neg hb]
      exact ((ih.cons f).trans (List.Perm.swap e f rest))

theorem sortByKey_perm (l : List (String × JVal)) : (sortByKey l).Perm l := by
  induction l with
  | nil => exact List.Perm.refl _
  | cons e rest ih =>
    exact (insertByKey_perm e (sortByKey rest)).trans (ih.cons e)

theorem alookup_insertByKey (e : String × JVal) (l : List (String × JVal)) (k : String) :
    alookup (insertByKey e l) k = if k = e.1 then some e.2 else alookup l k := by
  induction l with
  | nil => simp [insertByKey, alookup, eq_comm]
  | cons f rest ih =>
    simp only [insertByKey]
    by_cases hb : strLe e.1 f.1 = true
    · rw [if_pos hb]
      show (if e.1 = k then some e.2 else alookup (f :: rest) k) = _
      by_cases hk : e.1 = k
      · rw [if_pos hk, if_pos hk.symm]
      · rw [if_neg hk, if_neg (fun h => hk h.symm)]
    · rw [if_neg hb]
      have hne : f.1 ≠ e.1 := fun h => hb (h ▸ strLe_refl e.1)
      simp only [alookup, ih]
      by_cases hk : f.1 = k
      · rw [if_pos hk, if_neg (fun h : k = e.1 => hne (hk.trans h)), if_pos hk]
      · rw [if_neg hk, if_neg hk]

theorem alookup_sortByKey (l : List (String × JVal)) (k : String) :
    alookup (sortByKey l) k = alookup l k := by
  induction l with
  | nil => rfl
  | cons e rest ih =>
    show alookup (insertByKey e (sortByKey rest)) k = _
    rw [alookup_insertByKey, alookup]
    by_cases hk : k = e.1
    · rw [if_pos hk, if_pos hk.symm]
    · rw [if_neg hk, if_neg (fun h => hk h.symm), ih]

theorem alookup_sortEntries (es : List (String × JVal)) (k : String) :
    alookup (sortEntries es) k
      = (alookup es k).map (fun v => sort_json_schema v (some k)) := by
  induction es with
  | nil => rfl
  | cons e rest ih =>
    obtain ⟨k', v⟩ := e
    simp only [sortEntries, alookup]
    by_cases hk : k' = k
    · subst hk
      rw [if_pos rfl, if_pos rfl]
      rfl
    · rw [if_neg hk, if_neg hk, ih]

theorem dset_append_of_not_mem {l : JObj} {k : String} (v : JVal)
    (h : k ∉ akeys l) : dset l k v = l ++ [(k, v)] := by
  induction l with
  | nil => rfl
  | cons e rest ih =>
    obtain ⟨k', v'⟩ := e
    simp only [akeys, List.map_cons, List.mem_cons] at h
    push_neg at h
    show aset ((k', v') :: rest) k v = _
    simp only [aset, if_neg (fun hh : k' = k => h.1 hh.symm)]
    have := ih (by simpa [akeys] using h.2)
    show (k', v') :: aset rest k v = _
    rw [show aset rest k v = rest ++ [(k, v)] from this]
    rfl

theorem collapse_go_of_nodup {l : JObj} :
    ∀ {acc : JObj}, (akeys (acc ++ l)).Nodup →
    l.foldl (fun acc e => dset acc e.1 e.2) acc = acc ++ l := by
  induction l with
  | nil => intro acc _; simp
  | cons e rest ih =>
    intro acc h
    simp only [List.foldl_cons]
    have hnotin : e.1 ∉ akeys acc := by
      simp only [akeys, List.map_append, List.nodup_append] at h
      intro hmem
      exact h.2.2 hmem (by simp [akeys])
    rw [dset_append_of_not_mem e.2 hnotin]
    have h2 : (akeys ((acc ++ [(e.1, e.2)]) ++ rest)).Nodup := by
      simpa [akeys] using h
    rw [ih h2]
    simp

theorem collapseEntries_of_nodup {l : JObj} (h : (akeys l).Nodup) :
    collapseEntries l = l := by
  have := @collapse_go_of_nodup l [] (by simpa using h)
  simpa [collapseEntries] using this

theorem alookup_eq_of_mem_nodup {κ α : Type} [DecidableEq κ] {l : List (κ × α)}
    {k : κ} {v : α} (hn : (akeys l).Nodup) (hm : (k, v) ∈ l) :
    alookup l k = some v := by
  induction l with
  | nil => cases hm
  | cons e rest ih =>
    simp only [akeys, List.map_cons, List.nodup_cons] at hn
    rcases List.mem_cons.1 hm with h1 | h1
    · rw [← h1]
      simp [alookup]
    · have hkm : k ∈ List.map Prod.fst rest := List.mem_map_of_mem Prod.fst h1
      have hne : e.1 ≠ k := fun h => hn.1 (h ▸ hkm)
      simp only [alookup, if_neg hne]
      exact ih hn.2 h1

theorem mem_of_alookup_eq_some {κ α : Type} [DecidableEq κ] {l : List (κ × α)}
    {k : κ} {v : α} (h : alookup l k = some v) : (k, v) ∈ l := by
  induction l with
  | nil => cases h
  | cons e rest ih =>
    simp only [alookup] at h
    by_cases hk : e.1 = k
    · rw [if_pos hk] at h
      exact List.mem_cons.2 (Or.inl (by cases e; cases h; cases hk; rfl))
    · rw [if_neg hk] at h
      exact List.mem_cons.2 (Or.inr (ih h))

/- ### Ref-set preservation lemmas -/

theorem refsOfObj_cons (k : String) (v : JVal) (t : List (String × JVal)) :
    refsOfObj ((k, v) :: t) = refsOfEntry k v ++ refsOfObj t := by
  rw [refsOfObj.eq_def]
  rfl

theorem refsOfObj_cons_eta (e : String × JVal) (t : List (String × JVal)) :
    refsOfObj (e :: t) = refsOfEntry e.1 e.2 ++ refsOfObj t :=
  refsOfObj_cons e.1 e.2 t

theorem refsOfObj_append (l₁ l₂ : List (String × JVal)) :
    refsOfObj (l₁ ++ l₂) = refsOfObj l₁ ++ refsOfObj l₂ := by
  induction l₁ with
  | nil => rfl
  | cons e t ih =>
    rw [List.cons_append, refsOfObj_cons_eta, refsOfObj_cons_eta, ih, List.append_assoc]

theorem mem_refsOfObj_iff (l : List (String × JVal)) (r : String) :
    r ∈ refsOfObj l ↔ ∃ p ∈ l, r ∈ refsOfEntry p.1 p.2 := by
  induction l with
  | nil => simp [refsOfObj]
  | cons e t ih =>
    rw [refsOfObj_cons_eta]
    simp only [List.mem_append, ih, List.mem_cons]
    constructor
    · intro h
      rcases h with h | ⟨p, hp, hr⟩
      · exact ⟨e, Or.inl rfl, h⟩
      · exact ⟨p, Or.inr hp, hr⟩
    · intro h
      rcases h with ⟨p, hp | hp, hr⟩
      · subst hp
        exact Or.inl hr
      · exact Or.inr ⟨p, hp, hr⟩

theorem refsOfObj_mem_of_perm {l₁ l₂ : List (String × JVal)} (h : l₁.Perm l₂)
    (r : String) : r ∈ refsOfObj l₁ ↔ r ∈ refsOfObj l₂ := by
  rw [mem_refsOfObj_iff, mem_refsOfObj_iff]
  constructor
  · rintro ⟨p, hp, hr⟩
    exact ⟨p, h.mem_iff.1 hp, hr⟩
  · rintro ⟨p, hp, hr⟩
    exact ⟨p, h.mem_iff.2 hp, hr⟩

theorem refsOfEntry_obj (k : String) (es : List (String × JVal)) :
    refsOfEntry k (.obj es) = refsOfObj es := by
  by_cases hk : k = "$ref" <;> simp [refsOfEntry, refsOf, hk]

mutual
theorem mem_refsOf_sort (r : String) :
    ∀ (v : JVal) (pk : Option String),
      (r ∈ refsOf (sort_json_schema v pk) ↔ r ∈ refsOf v)
  | .null, _ => Iff.rfl
  | .bool _, _ => Iff.rfl
  | .int _, _ => Iff.rfl
  | .str _, _ => Iff.rfl
  | .arr items, pk => by
    simp only [sort_json_schema, refsOf]
    exact mem_refsOfArr_sortItems r items pk
  | .obj es, pk => by
    simp only [sort_json_schema, refsOf]
    have hse := mem_refsOfObj_sortEntries r es
    split
    · exact (refsOfObj_mem_of_perm (sortByKey_perm _) r).trans hse
    · exact hse

theorem mem_refsOfArr_sortItems (r : String) :
    ∀ (items : List JVal) (pk : Option String),
      (r ∈ refsOfArr (sortItems items pk) ↔ r ∈ refsOfArr items)
  | [], _ => Iff.rfl
  | v :: rest, pk => by
    simp only [sortItems, refsOfArr, List.mem_append]
    have h1 := mem_refsOf_sort r v pk
    have h2 := mem_refsOfArr_sortItems r rest pk
    tauto

theorem mem_refsOfObj_sortEntries (r : String) :
    ∀ (es : List (String × JVal)),
      (r ∈ refsOfObj (sortEntries es) ↔ r ∈ refsOfObj es)
  | [] => Iff.rfl
  | (k, v) :: rest => by
    have hrest := mem_refsOfObj_sortEntries r rest
    simp only [sortEntries]
    rw [refsOfObj_cons, refsOfObj_cons]
    simp only [List.mem_append]
    have hhead : r ∈ refsOfEntry k (sort_json_schema v (some k)) ↔ r ∈ refsOfEntry k v := by
      simp only [refsOfEntry]
      by_cases hk : k = "$ref"
      · rw [if_pos hk, if_pos hk]
        cases v with
        | str s => exact Iff.rfl
        | null => exact Iff.rfl
        | bool b => exact Iff.rfl
        | int n => exact Iff.rfl
        | arr items => exact mem_refsOf_sort r (.arr items) (some k)
        | obj es₂ => exact mem_refsOf_sort r (.obj es₂) (some k)
      · rw [if_neg hk, if_neg hk]
        exact mem_refsOf_sort r v (some k)
    tauto
end

mutual
theorem refsOf_remap (m : Remapping) :
    ∀ (v : JVal), defsFree v = true →
      refsOf (remap_json_schema m v) = (refsOf v).map m.remap_json_ref
  | .null, _ => rfl
  | .bool _, _ => rfl
  | .int _, _ => rfl
  | .str _, _ => rfl
  | .arr items, h => by
    simp only [remap_json_schema, refsOf]
    exact refsOfArr_remapItems m items (by simpa [defsFree] using h)
  | .obj es, h => by
    simp only [remap_json_schema, refsOf]
    exact refsOfObj_remapEntries m es (by simpa [defsFree] using h)

theorem refsOfArr_remapItems (m : Remapping) :
    ∀ (items : List JVal), defsFreeArr items = true →
      refsOfArr (remapItems m items) = (refsOfArr items).map m.remap_json_ref
  | [], _ => rfl
  | v :: rest, h => by
    simp only [defsFreeArr, Bool.and_eq_true] at h
    simp only [remapItems, refsOfArr, List.map_append]
    rw [refsOf_remap m v h.1, refsOfArr_remapItems m rest h.2]

theorem refsOfObj_remapEntries (m : Remapping) :
    ∀ (es : List (String × JVal)), defsFreeObj es = true →
      refsOfObj (remapEntries m es) = (refsOfObj es).map m.remap_json_ref
  | [], _ => rfl
  | (k, v) :: rest, h => by
    simp only [defsFreeObj, Bool.and_eq_true, decide_eq_true_eq] at h
    obtain ⟨⟨hk, hv⟩, hrest⟩ := h
    rw [remapEntries.eq_def]
    show refsOfObj ((k, _) :: remapEntries m rest) = _
    rw [refsOfObj_cons, refsOfObj_cons, List.map_append,
      refsOfObj_remapEntries m rest hrest]
    congr 1
    simp only [refsOfEntry]
    by_cases hkr : k = "$ref"
    · rw [if_pos hkr, if_pos hkr, if_pos hkr]
      cases v with
      | str s => rfl
      | null => exact refsOf_remap m .null hv
      | bool b => exact refsOf_remap m (.bool b) hv
      | int n => exact refsOf_remap m (.int n) hv
      | arr items => exact refsOf_remap m (.arr items) hv
      | obj es₂ => exact refsOf_remap m (.obj es₂) hv
    · rw [if_neg hkr, if_neg hkr, if_neg hkr]
      rw [if_neg hk]
      exact refsOf_remap m v hv
end

/- ### Garbage-collection closure lemmas -/

theorem ReachFrom.mono {table : List (String × String)} {defs : JObj}
    {work work' : List String} (hsub : ∀ r ∈ work, r ∈ work') {d : String}
    (h : ReachFrom table defs work d) : ReachFrom table defs work' d := by
  induction h with
  | base r d hr ht => exact .base r d (hsub r hr) ht
  | step d d' r v _ hdef hr ht ih => exact .step d d' r v ih hdef hr ht

theorem ReachFrom.shift {table : List (String × String)} {defs : JObj}
    {work : List String} {r₀ d₀ : String} {v₀ : JVal}
    (ht₀ : alookup table r₀ = some d₀) (hd₀ : alookup defs d₀ = some v₀)
    {d : String} (h : ReachFrom table defs (work ++ refsOf v₀) d) :
    ReachFrom table defs (r₀ :: work) d := by
  induction h with
  | base r d hr ht =>
    rcases List.mem_append.1 hr with h1 | h1
    · exact .base r d (List.mem_cons_of_mem _ h1) ht
    · exact .step d₀ d r v₀ (.base r₀ d₀ (List.mem_cons_self _ _) ht₀) hd₀ h1 ht
  | step d d' r v _ hdef hr ht ih => exact .step d d' r v ih hdef hr ht

theorem gcLoop_spec :
    ∀ (fuel : Nat) (visited work : List String) (st st' : GenState) (V : List String),
    runGen (gcLoop fuel visited work) st = (.ok V, st') →
    st' = st
    ∧ (∀ d ∈ visited, d ∈ V)
    ∧ (∀ r ∈ work, ∃ d, alookup st.json_to_defs_refs r = some d ∧ d ∈ V)
    ∧ (∀ d ∈ V, d ∈ visited ∨ ∃ v, alookup st.definitions d = some v ∧
        ∀ r ∈ refsOf v, ∃ d', alookup st.json_to_defs_refs r = some d' ∧ d' ∈ V)
    ∧ (∀ d ∈ V, d ∈ visited ∨
        ReachFrom st.json_to_defs_refs st.definitions work d) := by
  intro fuel
  induction fuel with
  | zero =>
    intro visited work st st' V h
    cases h
  | succ fuel ih =>
    intro visited work st st' V h
    cases work with
    | nil =>
      simp only [gcLoop, runGen_pure] at h
      obtain ⟨hV, hst⟩ : (Except.ok visited : Except PyErr (List String)) = .ok V ∧ st = st' := by
        cases h; exact ⟨rfl, rfl⟩
      cases hV
      refine ⟨hst.symm, fun d hd => hd, fun r hr => absurd hr (List.not_mem_nil r), ?_, ?_⟩
      · exact fun d hd => Or.inl hd
      · exact fun d hd => Or.inl hd
    | cons ref work =>
      simp only [gcLoop, runGen_bind, runGen_get] at h
      rcases halk : alookup st.json_to_defs_refs ref with _ | defsRef
      · simp only [halk, runGen_throw] at h
        cases h
      simp only [halk] at h
      by_cases hv : defsRef ∈ visited
      · rw [if_pos hv] at h
        obtain ⟨hst, hb, hc, hd, he⟩ := ih visited work st st' V h
        refine ⟨hst, hb, ?_, hd, ?_⟩
        · intro r hr
          rcases List.mem_cons.1 hr with h1 | h1
          · exact ⟨defsRef, h1 ▸ halk, hb defsRef hv⟩
          · exact hc r h1
        · intro d hdv
          rcases he d hdv with h1 | h1
          · exact Or.inl h1
          · exact Or.inr (h1.mono (fun r hr => List.mem_cons_of_mem _ hr))
      · rw [if_neg hv] at h
        rcases hdl : alookup st.definitions defsRef with _ | defJs
        · simp only [hdl, runGen_throw] at h
          cases h
        simp only [hdl] at h
        obtain ⟨hst, hb, hc, hd, he⟩ :=
          ih (visited ++ [defsRef]) (work ++ refsOf defJs) st st' V h
        have hbv : ∀ d ∈ visited, d ∈ V := fun d hdm =>
          hb d (List.mem_append.2 (Or.inl hdm))
        have hdefsRefV : defsRef ∈ V :=
          hb defsRef (List.mem_append.2 (Or.inr (List.mem_singleton.2 rfl)))
        refine ⟨hst, hbv, ?_, ?_, ?_⟩
        · intro r hr
          rcases List.mem_cons.1 hr with h1 | h1
          · exact ⟨defsRef, h1 ▸ halk, hdefsRefV⟩
          · exact hc r (List.mem_append.2 (Or.inl h1))
        · intro d hdv
          rcases hd d hdv with h1 | h1
          · rcases List.mem_append.1 h1 with h2 | h2
            · exact Or.inl h2
            · refine Or.inr ⟨defJs, (List.mem_singleton.1 h2) ▸ hdl, ?_⟩
              intro r hr
              exact hc r (List.mem_append.2 (Or.inr hr))
          · exact Or.inr h1
        · intro d hdv
          rcases he d hdv with h1 | h1
          · rcases List.mem_append.1 h1 with h2 | h2
            · exact Or.inl h2
            · refine Or.inr ?_
              rw [List.mem_singleton.1 h2]
              exact .base ref defsRef (List.mem_cons_self _ _) halk
          · exact Or.inr (ReachFrom.shift halk hdl h1)

/- ### Cons equations and key lemmas for the traversals -/

theorem refsOf_obj (es : List (String × JVal)) : refsOf (.obj es) = refsOfObj es := by
  rw [refsOf.eq_def]

theorem defsFree_obj (es : List (String × JVal)) :
    defsFree (.obj es) = defsFreeObj es := by
  rw [defsFree.eq_def]

theorem remap_obj (m : Remapping) (es : List (String × JVal)) :
    remap_json_schema m (.obj es) = .obj (remapEntries m es) := by
  rw [remap_json_schema.eq_def]

theorem remapEntries_cons (m : Remapping) (k : String) (v : JVal)
    (t : List (String × JVal)) :
    remapEntries m ((k, v) :: t) = (k, remapEntryVal m k v) :: remapEntries m t := by
  rw [remapEntries.eq_def]
  rfl

theorem remapEntries_cons_eta (m : Remapping) (e : String × JVal)
    (t : List (String × JVal)) :
    remapEntries m (e :: t) = (e.1, remapEntryVal m e.1 e.2) :: remapEntries m t :=
  remapEntries_cons m e.1 e.2 t

theorem remapDefs_cons (m : Remapping) (k : String) (v : JVal)
    (t : List (String × JVal)) :
    remapDefs m ((k, v) :: t)
      = (m.remap_defs_ref k, remap_json_schema m v) :: remapDefs m t := by
  rw [remapDefs.eq_def]

theorem remapDefs_cons_eta (m : Remapping) (e : String × JVal)
    (t : List (String × JVal)) :
    remapDefs m (e :: t)
      = (m.remap_defs_ref e.1, remap_json_schema m e.2) :: remapDefs m t :=
  remapDefs_cons m e.1 e.2 t

theorem sortEntries_cons (k : String) (v : JVal) (t : List (String × JVal)) :
    sortEntries ((k, v) :: t) = (k, sort_json_schema v (some k)) :: sortEntries t := by
  rw [sortEntries.eq_def]

theorem sortEntries_cons_eta (e : String × JVal) (t : List (String × JVal)) :
    sortEntries (e :: t) = (e.1, sort_json_schema e.2 (some e.1)) :: sortEntries t :=
  sortEntries_cons e.1 e.2 t

theorem defsFreeObj_cons (k : String) (v : JVal) (t : List (String × JVal)) :
    defsFreeObj ((k, v) :: t) = (decide (k ≠ "$defs") && defsFree v && defsFreeObj t) := by
  rw [defsFreeObj.eq_def]

theorem defsFreeObj_cons_eta (e : String × JVal) (t : List (String × JVal)) :
    defsFreeObj (e :: t)
      = (decide (e.1 ≠ "$defs") && defsFree e.2 && defsFreeObj t) :=
  defsFreeObj_cons e.1 e.2 t

theorem remapEntries_append (m : Remapping) (l₁ l₂ : List (String × JVal)) :
    remapEntries m (l₁ ++ l₂) = remapEntries m l₁ ++ remapEntries m l₂ := by
  induction l₁ with
  | nil => rfl
  | cons e t ih =>
    rw [List.cons_append, remapEntries_cons_eta, remapEntries_cons_eta, ih,
      List.cons_append]

theorem sortEntries_append (l₁ l₂ : List (String × JVal)) :
    sortEntries (l₁ ++ l₂) = sortEntries l₁ ++ sortEntries l₂ := by
  induction l₁ with
  | nil => rfl
  | cons e t ih =>
    rw [List.cons_append, sortEntries_cons_eta, sortEntries_cons_eta, ih,
      List.cons_append]

theorem akeys_remapEntries (m : Remapping) (es : List (String × JVal)) :
    akeys (remapEntries m es) = akeys es := by
  induction es with
  | nil => rfl
  | cons e t ih =>
    rw [remapEntries_cons_eta]
    simp only [akeys, List.map_cons] at ih ⊢
    rw [ih]

theorem akeys_sortEntries (es : List (String × JVal)) :
    akeys (sortEntries es) = akeys es := by
  induction es with
  | nil => rfl
  | cons e t ih =>
    rw [sortEntries_cons_eta]
    simp only [akeys, List.map_cons] at ih ⊢
    rw [ih]

theorem akeys_remapDefs (m : Remapping) (es : List (String × JVal)) :
    akeys (remapDefs m es) = es.map (fun e => m.remap_defs_ref e.1) := by
  induction es with
  | nil => rfl
  | cons e t ih =>
    rw [remapDefs_cons_eta]
    simp only [akeys, List.map_cons] at ih ⊢
    rw [ih]

theorem mem_remapDefs_of_mem {m : Remapping} {es : List (String × JVal)}
    {k : String} {v : JVal} (h : (k, v) ∈ es) :
    (m.remap_defs_ref k, remap_json_schema m v) ∈ remapDefs m es := by
  induction es with
  | nil => cases h
  | cons e t ih =>
    rw [remapDefs_cons_eta]
    rcases List.mem_cons.1 h with h1 | h1
    · rw [← h1]
      exact List.mem_cons_self _ _
    · exact List.mem_cons_of_mem _ (ih h1)

theorem mem_sortEntries_of_mem {es : List (String × JVal)} {k : String} {v : JVal}
    (h : (k, v) ∈ es) :
    (k, sort_json_schema v (some k)) ∈ sortEntries es := by
  induction es with
  | nil => cases h
  | cons e t ih =>
    rw [sortEntries_cons_eta]
    rcases List.mem_cons.1 h with h1 | h1
    · rw [← h1]
      exact List.mem_cons_self _ _
    · exact List.mem_cons_of_mem _ (ih h1)

theorem defsFreeObj_mem {es : List (String × JVal)} (hf : defsFreeObj es = true)
    {k : String} {v : JVal} (h : (k, v) ∈ es) :
    k ≠ "$defs" ∧ defsFree v = true := by
  induction es with
  | nil => cases h
  | cons e t ih =>
    rw [defsFreeObj_cons_eta] at hf
    simp only [Bool.and_eq_true, decide_eq_true_eq] at hf
    rcases List.mem_cons.1 h with h1 | h1
    · constructor
      · intro hk
        exact hf.1.1 (by rw [← h1] at hf ⊢; exact hk ▸ rfl)
      · have : e.2 = v := by rw [← h1]
        exact this ▸ hf.1.2
    · exact ih hf.2 h1

theorem notMem_akeys_of_defsFreeObj {es : List (String × JVal)}
    (hf : defsFreeObj es = true) : "$defs" ∉ akeys es := by
  intro hmem
  rw [akeys] at hmem
  rcases List.mem_map.1 hmem with ⟨p, hp, hkey⟩
  obtain ⟨h1, _⟩ := defsFreeObj_mem hf (show (p.1, p.2) ∈ es by simpa using hp)
  exact h1 hkey

theorem alookup_none_iff {κ α : Type} [DecidableEq κ] (l : List (κ × α)) (k : κ) :
    alookup l k = none ↔ k ∉ akeys l := by
  induction l with
  | nil => simp [alookup, akeys]
  | cons e t ih =>
    simp only [alookup, akeys, List.map_cons, List.mem_cons]
    by_cases hk : e.1 = k
    · simp [hk]
    · simp only [if_neg hk, ih, akeys]
      constructor
      · intro h hc
        rcases hc with hc | hc
        · exact hk hc.symm
        · exact h hc
      · intro h hc
        exact h (Or.inr hc)

theorem sort_obj_of_ne (es : List (String × JVal)) (pk : Option String)
    (h1 : pk ≠ some "properties") (h2 : pk ≠ some "default") :
    sort_json_schema (.obj es) pk = .obj (sortByKey (sortEntries es)) := by
  rw [sort_json_schema.eq_def]
  simp [h1, h2]

theorem garbage_collect_spec {js : JVal} {st st2 : GenState}
    (h : runGen (garbage_collect_definitions js) st = (.ok PUnit.unit, st2)) :
    ∃ V, runGen (gcLoop ((refsOf js).length +
          (st.definitions.map (fun e => (refsOf e.2).length)).sum + 1) [] (refsOf js)) st
        = (.ok V, st)
      ∧ st2 = { st with
          definitions := st.definitions.filter (fun e => decide (e.1 ∈ V)) } := by
  simp only [garbage_collect_definitions, runGen_bind, runGen_get, runGen_modify] at h
  rcases hg : runGen (gcLoop ((refsOf js).length +
      (st.definitions.map (fun e => (refsOf e.2).length)).sum + 1) [] (refsOf js)) st
    with ⟨res, stg⟩
  rw [hg] at h
  cases res with
  | error e => cases h
  | ok V =>
    have hstg : stg = st := (gcLoop_spec _ _ _ _ _ _ hg).1
    subst hstg
    simp only [runGen_modify] at h
    refine ⟨V, rfl, ?_⟩
    cases h
    rfl

theorem alookup_append {κ α : Type} [DecidableEq κ] (l₁ l₂ : List (κ × α)) (k : κ) :
    alookup (l₁ ++ l₂) k
      = match alookup l₁ k with
        | some v => some v
        | none => alookup l₂ k := by
  induction l₁ with
  | nil => rfl
  | cons e t ih =>
    simp only [List.cons_append, alookup]
    by_cases hk : e.1 = k
    · rw [if_pos hk, if_pos hk]
    · rw [if_neg hk, if_neg hk]
      exact ih

theorem mem_remapDefs_inv {m : Remapping} {es : List (String × JVal)}
    {p : String × JVal} (h : p ∈ remapDefs m es) :
    ∃ e ∈ es, p = (m.remap_defs_ref e.1, remap_json_schema m e.2) := by
  induction es with
  | nil => cases h
  | cons e t ih =>
    rw [remapDefs_cons_eta] at h
    rcases List.mem_cons.1 h with h1 | h1
    · exact ⟨e, List.mem_cons_self _ _, h1⟩
    · obtain ⟨e', he', hp⟩ := ih h1
      exact ⟨e', List.mem_cons_of_mem _ he', hp⟩

theorem reach_mem {table : List (String × String)} {defs : JObj} {work : List String}
    {V : List String}
    (hwork : ∀ r ∈ work, ∃ d, alookup table r = some d ∧ d ∈ V)
    (hclosed : ∀ d ∈ V, ∃ v, alookup defs d = some v ∧
        ∀ r ∈ refsOf v, ∃ d', alookup table r = some d' ∧ d' ∈ V) :
    ∀ d, ReachFrom table defs work d → d ∈ V := by
  intro d h
  induction h with
  | base r d hr ht =>
    obtain ⟨d₂, ht₂, hd₂⟩ := hwork r hr
    rw [ht] at ht₂
    exact (Option.some.inj ht₂) ▸ hd₂
  | step d d' r v hRF hlook hr ht ih =>
    obtain ⟨v₁, hv₁, hres⟩ := hclosed d ih
    rw [hlook] at hv₁
    obtain ⟨d₂, ht₂, hd₂⟩ := hres r (by rw [← Option.some.inj hv₁]; exact hr)
    rw [ht] at ht₂
    exact (Option.some.inj ht₂) ▸ hd₂

set_option maxHeartbeats 1000000 in
/-- C8: exact correspondence between `$ref` strings and the `$defs` table
in the final document of `generate` (lines 373-423).  The hypotheses
supply the intermediate results of one run (the `generate_inner` output,
the ref counts, the unpacked top level, the garbage-collected state and
the remapping — each an equation a concrete run discharges by `rfl`)
together with decidable side conditions that the generator's construction
maintains: the JsonRef-to-DefsRef table is template-aligned, definition
keys are unique, definitions are `$defs`-free dicts, the unpacked top
level is `$defs`-free, and the remapping renames json refs consistently
with defs keys and without merging keys.  The conclusions: the run
returns exactly the assembled document, every `$ref` string anywhere in
it is the template image of a key present in its `$defs` table (no
dangling refs), and every `$defs` key is reachable from the document
root through a chain of `$ref` occurrences (no dead definitions). -/
theorem C8_ref_defs_exact_correspondence
    (cfg : GenConfig) (schema : CoreSchema) (mode : Mode)
    (st st1 st2 : GenState) (js0 : JVal) (js1e : JObj)
    (counts counts' : List (String × Int)) (rm : Remapping) (doc : JVal)
    (h0 : st.used = false)
    (h1 : runGen (generate_inner cfg schema) { st with mode := mode } = (.ok js0, st1))
    (h2 : runGen (get_json_ref_counts js0) st1 = (.ok counts, st1))
    (h3 : runGen (unpackRefLoop ((counts.map (fun e => e.2.toNat)).sum + counts.length + 1)
            counts js0) st1 = (.ok (.obj js1e, counts'), st1))
    (h4 : runGen (garbage_collect_definitions (.obj js1e)) st1 = (.ok PUnit.unit, st2))
    (h5 : runGen (build_definitions_remapping cfg) st2 = (.ok rm, st2))
    (hA : tableAligned cfg.ref_template st1.json_to_defs_refs = true)
    (hND : (akeys st1.definitions).Nodup)
    (hDO : st1.definitions.all (fun e => isObjDefsFree e.2) = true)
    (hJF : defsFreeObj js1e = true)
    (hRM : (akeys st2.definitions).all (fun d =>
        rm.remap_json_ref (format_ref cfg.ref_template d)
          == format_ref cfg.ref_template (rm.remap_defs_ref d)) = true)
    (hRK : (st2.definitions.map (fun e => rm.remap_defs_ref e.1)).Nodup)
    (hdoc : doc = sort_json_schema (remap_json_schema rm
        (if st2.definitions.isEmpty then .obj js1e
         else .obj (dset js1e "$defs" (.obj st2.definitions)))) none) :
    runGen (generate cfg schema mode) st = (.ok doc, { st2 with used := true })
    ∧ (∀ r ∈ refsOf doc, ∃ k ∈ akeys (docDefsOf doc), r = format_ref cfg.ref_template k)
    ∧ (∀ k ∈ akeys (docDefsOf doc),
        ReachableDef cfg.ref_template (docRootOf doc) (docDefsOf doc) k) := by
  obtain ⟨V, hg, hst2⟩ := garbage_collect_spec h4
  obtain ⟨-, hbV, hcV, hdV, heV⟩ := gcLoop_spec _ _ _ _ _ _ hg
  have hdefs2 : st2.definitions
      = st1.definitions.filter (fun e => decide (e.1 ∈ V)) := by
    rw [hst2]
  rw [h0] at h1
  have F1 : ∀ r ∈ refsOfObj js1e,
      ∃ d, alookup st1.json_to_defs_refs r = some d ∧ d ∈ V := by
    intro r hr
    exact hcV r (by rw [refsOf_obj]; exact hr)
  have F2 : ∀ d ∈ V, ∃ v, alookup st1.definitions d = some v ∧
      ∀ r ∈ refsOf v, ∃ d', alookup st1.json_to_defs_refs r = some d' ∧ d' ∈ V := by
    intro d hd
    rcases hdV d hd with h | h
    · exact absurd h (List.not_mem_nil d)
    · exact h
  have F3 : ∀ d ∈ V,
      ReachFrom st1.json_to_defs_refs st1.definitions (refsOf (.obj js1e)) d := by
    intro d hd
    rcases heV d hd with h | h
    · exact absurd h (List.not_mem_nil d)
    · exact h
  have F5 : ∀ {k : String} {v : JVal},
      (k, v) ∈ st2.definitions ↔ (k, v) ∈ st1.definitions ∧ k ∈ V := by
    intro k v
    rw [hdefs2, List.mem_filter]
    simp only [decide_eq_true_eq]
  have F6 : ∀ {k : String} {v : JVal},
      (k, v) ∈ st2.definitions → alookup st1.definitions k = some v := by
    intro k v h
    exact alookup_eq_of_mem_nodup hND (F5.mp h).1
  have F7 : ∀ {r d : String}, alookup st1.json_to_defs_refs r = some d →
      r = format_ref cfg.ref_template d := by
    intro r d h
    have hm := mem_of_alookup_eq_some h
    have := List.all_eq_true.1 hA _ hm
    simpa using this
  have F8 : ∀ {d : String}, d ∈ V → d ∈ akeys st2.definitions := by
    intro d hd
    obtain ⟨v, hv, -⟩ := F2 d hd
    have hmem : (d, v) ∈ st2.definitions := F5.mpr ⟨mem_of_alookup_eq_some hv, hd⟩
    rw [akeys]
    exact List.mem_map_of_mem Prod.fst hmem
  have F9 : ∀ {d : String}, d ∈ akeys st2.definitions →
      rm.remap_json_ref (format_ref cfg.ref_template d)
        = format_ref cfg.ref_template (rm.remap_defs_ref d) := by
    intro d hd
    have := List.all_eq_true.1 hRM d hd
    simpa using this
  have F10 : ∀ {k : String} {v : JVal}, (k, v) ∈ st1.definitions →
      ∃ ves, v = .obj ves ∧ defsFreeObj ves = true := by
    intro k v h
    have hall := List.all_eq_true.1 hDO _ h
    cases v with
    | obj ves => exact ⟨ves, rfl, by simpa [isObjDefsFree] using hall⟩
    | null => simp [isObjDefsFree] at hall
    | bool b => simp [isObjDefsFree] at hall
    | int n => simp [isObjDefsFree] at hall
    | str s => simp [isObjDefsFree] at hall
    | arr items => simp [isObjDefsFree] at hall
  cases hE : st2.definitions.isEmpty with
  | true =>
    have hnil : st2.definitions = [] := by
      cases hdd : st2.definitions with
      | nil => rfl
      | cons a t => rw [hdd] at hE; cases hE
    have hnoV : ∀ d, d ∉ V := by
      intro d hd
      have h8 := F8 hd
      rw [hnil] at h8
      simp [akeys] at h8
    have hnoRefs : ∀ r, r ∉ refsOfObj js1e := by
      intro r hr
      obtain ⟨d, -, hdV⟩ := F1 r hr
      exact hnoV d hdV
    have hdocEq : doc = .obj (sortByKey (sortEntries (remapEntries rm js1e))) := by
      rw [hdoc, hE]
      simp only [if_true]
      rw [remap_obj, sort_obj_of_ne _ none (by simp) (by simp)]
    have hdefsE : docDefsOf doc = [] := by
      rw [hdocEq]
      simp only [docDefsOf]
      rw [alookup_sortByKey, alookup_sortEntries]
      have hnone : alookup (remapEntries rm js1e) "$defs" = none :=
        (alookup_none_iff _ _).2
          (by rw [akeys_remapEntries]; exact notMem_akeys_of_defsFreeObj hJF)
      rw [hnone]
      rfl
    refine ⟨?_, ?_, ?_⟩
    · rw [hdocEq]
      simp only [generate, runGen_bind, runGen_modify, runGen_get, h0,
        Bool.false_eq_true, if_false, h1, h2, h3, h4, h5, hE, if_true,
        runGen_pure, runGen_modify]
      rw [remap_obj, sort_obj_of_ne _ none (by simp) (by simp)]
    · intro r hr
      rw [hdocEq, refsOf_obj] at hr
      have hr2 := (mem_refsOfObj_sortEntries r _).1
        ((refsOfObj_mem_of_perm (sortByKey_perm _) r).1 hr)
      rw [refsOfObj_remapEntries rm js1e hJF] at hr2
      obtain ⟨r₀, hr₀, -⟩ := List.mem_map.1 hr2
      exact absurd hr₀ (hnoRefs r₀)
    · intro k hk
      rw [hdefsE] at hk
      simp [akeys] at hk
  | false =>
    have hne : "$defs" ∉ akeys js1e := notMem_akeys_of_defsFreeObj hJF
    have hattE : dset js1e "$defs" (.obj st2.definitions)
        = js1e ++ [("$defs", .obj st2.definitions)] :=
      dset_append_of_not_mem _ hne
    have hcoll : collapseEntries (remapDefs rm st2.definitions)
        = remapDefs rm st2.definitions :=
      collapseEntries_of_nodup (by rw [akeys_remapDefs]; exact hRK)
    have hB : remapEntries rm [("$defs", JVal.obj st2.definitions)]
        = [("$defs", .obj (remapDefs rm st2.definitions))] := by
      rw [remapEntries_cons]
      rw [show remapEntryVal rm "$defs" (.obj st2.definitions)
          = .obj (collapseEntries (remapDefs rm st2.definitions)) from rfl]
      rw [hcoll]
      rfl
    have hremapAtt : remap_json_schema rm
        (.obj (dset js1e "$defs" (.obj st2.definitions)))
        = .obj (remapEntries rm js1e
            ++ [("$defs", .obj (remapDefs rm st2.definitions))]) := by
      rw [remap_obj, hattE, remapEntries_append, hB]
    have hdocEq : doc = .obj (sortByKey (sortEntries (remapEntries rm js1e
        ++ [("$defs", .obj (remapDefs rm st2.definitions))]))) := by
      rw [hdoc, hE]
      simp only [Bool.false_eq_true, if_false]
      rw [hremapAtt, sort_obj_of_ne _ none (by simp) (by simp)]
    have hlookA : alookup (remapEntries rm js1e) "$defs" = none :=
      (alookup_none_iff _ _).2
        (by rw [akeys_remapEntries]; exact hne)
    have hlook : alookup (sortByKey (sortEntries (remapEntries rm js1e
        ++ [("$defs", .obj (remapDefs rm st2.definitions))]))) "$defs"
        = some (sort_json_schema (.obj (remapDefs rm st2.definitions)) (some "$defs")) := by
      rw [alookup_sortByKey, alookup_sortEntries, alookup_append, hlookA]
      rfl
    have hsortD : sort_json_schema (.obj (remapDefs rm st2.definitions)) (some "$defs")
        = .obj (sortByKey (sortEntries (remapDefs rm st2.definitions))) :=
      sort_obj_of_ne _ _ (by simp) (by simp)
    have hdocDefs : docDefsOf doc
        = sortByKey (sortEntries (remapDefs rm st2.definitions)) := by
      rw [hdocEq]
      simp only [docDefsOf]
      rw [hlook, hsortD]
    have hkeysD : ∀ {k' : String}, k' ∈ akeys (docDefsOf doc) ↔
        ∃ e ∈ st2.definitions, k' = rm.remap_defs_ref e.1 := by
      intro k'
      rw [hdocDefs]
      have hp : (akeys (sortByKey (sortEntries (remapDefs rm st2.definitions)))).Perm
          (akeys (sortEntries (remapDefs rm st2.definitions))) :=
        (sortByKey_perm _).map Prod.fst
      rw [hp.mem_iff, akeys_sortEntries, akeys_remapDefs]
      simp only [List.mem_map]
      constructor
      · rintro ⟨e, he, hk⟩
        exact ⟨e, he, hk.symm⟩
      · rintro ⟨e, he, hk⟩
        exact ⟨e, he, hk.symm⟩
    have hkeyOf : ∀ {d : String}, d ∈ akeys st2.definitions →
        rm.remap_defs_ref d ∈ akeys (docDefsOf doc) := by
      intro d hd
      rw [akeys] at hd
      obtain ⟨e, he, hk⟩ := List.mem_map.1 hd
      exact hkeysD.mpr ⟨e, he, by rw [hk]⟩
    have hrootPerm : (adel (sortByKey (sortEntries (remapEntries rm js1e
        ++ [("$defs", .obj (remapDefs rm st2.definitions))]))) "$defs").Perm
        (sortEntries (remapEntries rm js1e)) := by
      have hp1 : (adel (sortByKey (sortEntries (remapEntries rm js1e
          ++ [("$defs", .obj (remapDefs rm st2.definitions))]))) "$defs").Perm
          (adel (sortEntries (remapEntries rm js1e
            ++ [("$defs", .obj (remapDefs rm st2.definitions))])) "$defs") := by
        rw [adel, adel]
        exact (sortByKey_perm _).filter _
      have hsplit : adel (sortEntries (remapEntries rm js1e
          ++ [("$defs", .obj (remapDefs rm st2.definitions))])) "$defs"
          = sortEntries (remapEntries rm js1e) := by
        rw [sortEntries_append, adel, List.filter_append]
        have hall : List.filter (fun e => decide (e.1 ≠ "$defs"))
            (sortEntries (remapEntries rm js1e))
            = sortEntries (remapEntries rm js1e) := by
          rw [List.filter_eq_self]
          intro a ha
          have hmem : a.1 ∈ akeys (sortEntries (remapEntries rm js1e)) := by
            rw [akeys]
            exact List.mem_map_of_mem Prod.fst ha
          rw [akeys_sortEntries, akeys_remapEntries] at hmem
          simp only [decide_eq_true_eq]
          intro hcontra
          rw [hcontra] at hmem
          exact hne hmem
        have hgone : List.filter (fun e => decide (e.1 ≠ "$defs"))
            (sortEntries [("$defs", JVal.obj (remapDefs rm st2.definitions))]) = [] := by
          rw [sortEntries_cons]
          rfl
        rw [hall, hgone, List.append_nil]
      rw [← hsplit]
      exact hp1
    have hrootRefs : ∀ {r' : String}, r' ∈ refsOf (docRootOf doc) ↔
        r' ∈ (refsOfObj js1e).map rm.remap_json_ref := by
      intro r'
      rw [hdocEq]
      simp only [docRootOf]
      rw [refsOf_obj]
      rw [refsOfObj_mem_of_perm hrootPerm r', mem_refsOfObj_sortEntries,
        refsOfObj_remapEntries rm js1e hJF]
    have hresolve : ∀ {r₀ d : String}, alookup st1.json_to_defs_refs r₀ = some d →
        d ∈ V →
        rm.remap_json_ref r₀ = format_ref cfg.ref_template (rm.remap_defs_ref d)
        ∧ rm.remap_defs_ref d ∈ akeys (docDefsOf doc) := by
      intro r₀ d htab hdV
      have hr₀ : r₀ = format_ref cfg.ref_template d := F7 htab
      have hdk : d ∈ akeys st2.definitions := F8 hdV
      constructor
      · rw [hr₀]
        exact F9 hdk
      · exact hkeyOf hdk
    refine ⟨?_, ?_, ?_⟩
    · rw [hdocEq]
      simp only [generate, runGen_bind, runGen_modify, runGen_get, h0,
        Bool.false_eq_true, if_false, h1, h2, h3, h4, h5, hE,
        runGen_pure, runGen_modify, objEntries]
      rw [hremapAtt, sort_obj_of_ne _ none (by simp) (by simp)]
    · intro r' hr'
      rw [hdocEq, refsOf_obj] at hr'
      have hr2 := (mem_refsOfObj_sortEntries r' _).1
        ((refsOfObj_mem_of_perm (sortByKey_perm _) r').1 hr')
      rw [refsOfObj_append] at hr2
      rcases List.mem_append.1 hr2 with hleft | hright
      · rw [refsOfObj_remapEntries rm js1e hJF] at hleft
        obtain ⟨r₀, hr₀, hrm⟩ := List.mem_map.1 hleft
        obtain ⟨d, htab, hdV⟩ := F1 r₀ hr₀
        obtain ⟨heq, hkey⟩ := hresolve htab hdV
        exact ⟨rm.remap_defs_ref d, hkey, by rw [← hrm, heq]⟩
      · rw [refsOfObj_cons] at hright
        rw [refsOfEntry_obj] at hright
        rcases List.mem_append.1 hright with hright | hnil
        swap
        · cases hnil
        obtain ⟨p, hp, hrp⟩ := (mem_refsOfObj_iff _ r').1 hright
        obtain ⟨e, he, hpe⟩ := mem_remapDefs_inv hp
        obtain ⟨hest1, heV2⟩ := F5.mp (show (e.1, e.2) ∈ st2.definitions by simpa using he)
        obtain ⟨ves, hves, hvfree⟩ := F10 hest1
        rw [hpe] at hrp
        simp only at hrp
        rw [hves, remap_obj, refsOfEntry_obj,
          refsOfObj_remapEntries rm ves hvfree] at hrp
        obtain ⟨r₀, hr₀, hrm⟩ := List.mem_map.1 hrp
        obtain ⟨v', hv', hres⟩ := F2 e.1 heV2
        have hv'e : v' = e.2 := by
          have := F6 (show (e.1, e.2) ∈ st2.definitions by simpa using he)
          rw [this] at hv'
          exact (Option.some.inj hv').symm
        have hr₀v : r₀ ∈ refsOf e.2 := by
          rw [hves, refsOf_obj]
          exact hr₀
        obtain ⟨d', htab', hd'V⟩ := hres r₀ (by rw [hv'e]; exact hr₀v)
        obtain ⟨heq, hkey⟩ := hresolve htab' hd'V
        exact ⟨rm.remap_defs_ref d', hkey, by rw [← hrm, heq]⟩
    · have hRFtrans : ∀ d,
          ReachFrom st1.json_to_defs_refs st1.definitions (refsOf (.obj js1e)) d →
          d ∈ V →
          ReachableDef cfg.ref_template (docRootOf doc) (docDefsOf doc)
            (rm.remap_defs_ref d) := by
        intro d hRF
        induction hRF with
        | base r d hrW htab =>
          intro hdV
          have hr : r ∈ refsOfObj js1e := by rwa [refsOf_obj] at hrW
          obtain ⟨heq, -⟩ := hresolve htab hdV
          refine .base _ ?_
          rw [hrootRefs]
          refine List.mem_map.2 ⟨r, hr, ?_⟩
          rw [heq]
        | step d d' r v hRF₀ hlook hr htab ih =>
          intro hd'V
          have hdV : d ∈ V := reach_mem hcV F2 d hRF₀
          have hreach := ih hdV
          have hmem1 : (d, v) ∈ st1.definitions := mem_of_alookup_eq_some hlook
          have hmem2 : (d, v) ∈ st2.definitions := F5.mpr ⟨hmem1, hdV⟩
          obtain ⟨ves, hves, hvfree⟩ := F10 hmem1
          have hedge : (rm.remap_defs_ref d,
              sort_json_schema (remap_json_schema rm v)
                (some (rm.remap_defs_ref d))) ∈ docDefsOf doc := by
            rw [hdocDefs]
            refine ((sortByKey_perm _).mem_iff).2 ?_
            exact mem_sortEntries_of_mem (mem_remapDefs_of_mem hmem2)
          obtain ⟨heq, -⟩ := hresolve htab hd'V
          refine .step (rm.remap_defs_ref d) _ _ hreach hedge ?_
          rw [← heq]
          rw [(mem_refsOf_sort _ _ _ : _ ↔ _)]
          rw [hves, remap_obj, refsOf_obj, refsOfObj_remapEntries rm ves hvfree]
          refine List.mem_map.2 ⟨r, ?_, rfl⟩
          have : r ∈ refsOf (JVal.obj ves) := hves ▸ hr
          rwa [refsOf_obj] at this
      intro k' hk'
      obtain ⟨e, he, hkeq⟩ := hkeysD.mp hk'
      obtain ⟨-, heV2⟩ := F5.mp (show (e.1, e.2) ∈ st2.definitions by simpa using he)
      rw [hkeq]
      exact hRFtrans e.1 (F3 e.1 heV2) heV2

set_option maxRecDepth 8000 in
/-- Witness for C8 at a concrete input: for the self-referential model,
the run returns the assembled document and both correspondence directions
hold on it. -/
theorem C8_ref_defs_exact_correspondence_witness :
    runGen (generate {} c8schema .validation) initState
      = (.ok c8doc, { c8state with used := true })
    ∧ (∀ r ∈ refsOf c8doc, ∃ k ∈ akeys (docDefsOf c8doc),
        r = format_ref ({} : GenConfig).ref_template k)
    ∧ (∀ k ∈ akeys (docDefsOf c8doc),
        ReachableDef ({} : GenConfig).ref_template (docRootOf c8doc)
          (docDefsOf c8doc) k) := by
  have h := C8_ref_defs_exact_correspondence {} c8schema .validation initState
    c8state c8state
    (.obj [("$ref", .str "#/$defs/A-Input__1")])
    [("allOf", .arr [.obj [("$ref", .str "#/$defs/A-Input__1")]])]
    [("#/$defs/A-Input__1", 2)] [("#/$defs/A-Input__1", 2)]
    ⟨[("A-Input__1", "A")], [("#/$defs/A-Input__1", "#/$defs/A")]⟩
    c8doc
    rfl
    (by simp only [generate_inner, gen_definitions_list, gen_fields,
          gen_union_choices, gen_tagged_choices, runGen]
        rfl)
    rfl rfl rfl rfl rfl (by decide) rfl rfl rfl (by decide) rfl
  exact ⟨h.1, h.2.1, h.2.2⟩

end Pyd
